import Mathlib

/-!
# Streaming audio playback service: shallow embedding

This file embeds the stateful streaming audio service of
`src/services/cacheService.ts` (the Segment Sequencer, Playback Clock/Engine
and Timing Estimator of the specification) and settles the claims about it.

Modelling conventions:

* JS numbers (clock times, offsets, durations) are exact rationals.  The
  hardware clock (`AudioContext.currentTime`) and the wall clock used by
  `window.setTimeout` advance together; every operation takes the current
  time as an explicit argument.
* The base64 payload of a chunk is modelled by the byte list that `atob`
  yields for it, with `none` standing for a malformed string on which `atob`
  throws.
* `decodeAudioData` is synchronous CPU work (specification, section 5), so
  `_tryToPlayNextChunk` runs atomically; the transient `isDecoding` flag
  never survives an operation, but the source's guards on it are kept.
* Invocations of the three externally supplied callbacks, calls of the
  decode pipeline, hand-offs of a queued chunk to `_playChunk`, and
  `source.start` calls are recorded in an event list, so theorems can speak
  about what the session controller and the audio hardware observe.
* `setTimeout` handles are modelled by the list `highlightTimeouts` of
  pending timers, each carrying its absolute deadline and the within-chunk
  sentence index it will report (the closure reads the module counter
  `totalSentencesProcessed` at fire time, which is modelled faithfully).
-/

namespace BookNarrator

attribute [local semireducible] Rat.add Rat.mul Rat.inv Rat.sub

/-- A decoded fixed-format audio buffer: 24 kHz mono (`ctx.createBuffer(1,
frameCount, 24000)`).  Only the frame count is relevant to scheduling; the
sample values (the int16 data normalised into [-1, 1)) never influence
control flow. -/
structure AudioBuffer where
  frameCount : Nat
deriving DecidableEq, Repr

/-- `buffer.duration` = sampleCount / sampleRate. -/
def AudioBuffer.duration (b : AudioBuffer) : ℚ := (b.frameCount : ℚ) / 24000

/-- `decodeAudioData (decode base64)`: a malformed base64 string makes `atob`
throw (`none` payload); an odd byte count makes the `Int16Array` constructor
throw a RangeError; otherwise the buffer holds one 16-bit frame per two
bytes. -/
def decodePayload : Option (List Nat) → Option AudioBuffer
  | none => none
  | some bytes => if bytes.length % 2 = 0 then some ⟨bytes.length / 2⟩ else none

/-- An entry of the `audioQueue` map (`AudioQueueItem` in the source). -/
structure AudioQueueItem where
  base64 : Option (List Nat)
  text : List Char
  chunkIndex : Nat
  buffer : Option AudioBuffer
deriving DecidableEq, Repr

/-- A `Required<AudioQueueItem>` as handed to `_playChunk`. -/
structure ReadyItem where
  text : List Char
  chunkIndex : Nat
  buffer : AudioBuffer
deriving DecidableEq, Repr

/-- `Map.get` on the association-list model of the JS `Map` `audioQueue`
(keys are unique by construction of `qset` and `qdel`, so list order never
matters). -/
def qget : List (Nat × AudioQueueItem) → Nat → Option AudioQueueItem
  | [], _ => none
  | p :: r, k => if p.1 = k then some p.2 else qget r k

/-- `Map.set`: inserts or overwrites the entry for key `k`. -/
def qset (m : List (Nat × AudioQueueItem)) (k : Nat) (v : AudioQueueItem) :
    List (Nat × AudioQueueItem) :=
  (k, v) :: m.filter (fun p => p.1 != k)

/-- `Map.delete`. -/
def qdel (m : List (Nat × AudioQueueItem)) (k : Nat) : List (Nat × AudioQueueItem) :=
  m.filter (fun p => p.1 != k)

/-- The sentence terminators of the regex class `[.!?…]`. -/
def isTerm (c : Char) : Bool := c == '.' || c == '!' || c == '?' || c == '…'

/-- The regex class `\s`, restricted to its ASCII forms (the unicode spaces
never occur in the texts at issue). -/
def isWs (c : Char) : Bool :=
  c == ' ' || c == '\t' || c == '\n' || c == '\r' || c == '\x0b' || c == '\x0c'

/-- Line terminators, which the regex `.` does not match. -/
def isNl (c : Char) : Bool := c == '\n' || c == '\r'

/-- One scan of `text.match(/[^.!?…]+[.!?…]*\s*|.+/g)`, one unit per fuel
step.  At a position holding a terminator the first alternative cannot start
(its `+` class excludes terminators) and `.+` greedily takes the rest of the
line; at any other position the first alternative takes a maximal
non-terminator run, then a maximal terminator run, then maximal whitespace.
Every position matches and every match is nonempty, so the global scan never
skips characters; fuel `text.length` always suffices. -/
def splitUnitsF : Nat → List Char → List (List Char)
  | 0, _ => []
  | _, [] => []
  | fuel + 1, c :: rest =>
    if isTerm c then
      ((c :: rest).takeWhile (fun x => !(isNl x))) ::
        splitUnitsF fuel ((c :: rest).dropWhile (fun x => !(isNl x)))
    else
      let a := (c :: rest).takeWhile (fun x => !(isTerm x))
      let r₁ := (c :: rest).dropWhile (fun x => !(isTerm x))
      let b := r₁.takeWhile isTerm
      let r₂ := r₁.dropWhile isTerm
      (a ++ b ++ r₂.takeWhile isWs) :: splitUnitsF fuel (r₂.dropWhile isWs)

/-- The full match list of `text.match(/[^.!?…]+[.!?…]*\s*|.+/g)`, which is
empty exactly when `text` is empty (a `null` result in JS). -/
def splitUnits (text : List Char) : List (List Char) := splitUnitsF text.length text

/-- `text.match(...) || [text]`: the fallback used by
`_scheduleHighlightingForChunk` turns a `null` match result into the single
unit `[text]`. -/
def sentencesOf (text : List Char) : List (List Char) :=
  match splitUnits text with
  | [] => [text]
  | us => us

/-- Truncation toward zero, as the JS `%` operator uses. -/
def jsTrunc (q : ℚ) : ℤ := q.num.tdiv (q.den : ℤ)

/-- The JS remainder `a % b` (dividend-signed, truncated division).  `b = 0`
yields NaN in JS; the guarded paths modelled here never evaluate it. -/
def jsMod (a b : ℚ) : ℚ := a - b * (jsTrunc (a / b) : ℚ)

/-- Observable occurrences: callback invocations (`firstChunkReady`,
`sessionEnded`, `sentenceChange`), invocations of the decode pipeline
(`decodeCall`), the hand-off of the queued chunk at `nextChunkToPlayIndex`
to `_playChunk` (`released`), and `source.start(when, offset)` on a source
node carrying `buffer` (`playStarted`). -/
inductive Ev where
  | firstChunkReady : Ev
  | sessionEnded : Ev
  | sentenceChange : Nat → Ev
  | released : Nat → Ev
  | playStarted : Nat → AudioBuffer → ℚ → ℚ → Ev
  | decodeCall : Nat → Ev
deriving DecidableEq, Repr

/-- The module-level mutable state of the streaming service.  `hasCallbacks`
models whether the three callbacks are non-null (they are set together by
`startStreamingPlayback` and nulled together by `_resetState`);
`hasCurrentSource` models `currentSource !== null`; `onendedArmed` models
whether a started source node still has its `onended` handler attached;
`currentEndsAt` records when the currently scheduled source node will end
(instrumentation for run validity, written where `source.start` is called). -/
structure SvcState where
  audioQueue : List (Nat × AudioQueueItem)
  isSessionActive : Bool
  isPlayingChunk : Bool
  isDecoding : Bool
  isPaused : Bool
  isFirstChunkOfSession : Bool
  isEndOfStream : Bool
  nextChunkToPlayIndex : Nat
  hasCurrentSource : Bool
  onendedArmed : Bool
  currentBuffer : Option AudioBuffer
  currentTextChunk : Option (List Char)
  currentAbsoluteChunkIndex : ℤ
  playbackStartTime : ℚ
  startOffset : ℚ
  highlightTimeouts : List (ℚ × Nat)
  totalSentencesProcessed : Nat
  nextPlaybackTime : ℚ
  hasCallbacks : Bool
  currentEndsAt : ℚ
deriving DecidableEq, Repr

/-- The state at module load. -/
def initState : SvcState where
  audioQueue := []
  isSessionActive := false
  isPlayingChunk := false
  isDecoding := false
  isPaused := false
  isFirstChunkOfSession := true
  isEndOfStream := false
  nextChunkToPlayIndex := 0
  hasCurrentSource := false
  onendedArmed := false
  currentBuffer := none
  currentTextChunk := none
  currentAbsoluteChunkIndex := -1
  playbackStartTime := 0
  startOffset := 0
  highlightTimeouts := []
  totalSentencesProcessed := 0
  nextPlaybackTime := 0
  hasCallbacks := false
  currentEndsAt := 0

/-- `_resetState`: stops and disconnects the source, clears the queue and
every flag, counter and callback.  The scheduling cursor `nextPlaybackTime`
is not among the variables it resets. -/
def resetState (s : SvcState) : SvcState :=
  { initState with nextPlaybackTime := s.nextPlaybackTime }

/-- The `startingSentenceIndex` search loop of
`_scheduleHighlightingForChunk`: first index whose cumulative estimated
duration exceeds the offset; the index stays at its initial value 0 when the
loop finishes without a break. -/
def findStartAux (offset : ℚ) : List ℚ → ℚ → Nat → Nat
  | [], _, _ => 0
  | d :: rest, cto, i =>
    if cto + d > offset then i else findStartAux offset rest (cto + d) (i + 1)

/-- The timer loop of `_scheduleHighlightingForChunk`, over
`i ∈ [startingSentenceIndex, sentences.length - 1)`:
`cumulativeTimeToSchedule` starts at `-startOffset` and accumulates the
estimated durations of the remaining units only; a timer is registered only
when the accumulated value is positive, with absolute deadline `now +
cumulativeTimeToSchedule`, reporting within-chunk sentence index `i + 1`. -/
def mkTimersAux (cps now : ℚ) : List (List Char) → ℚ → Nat → List (ℚ × Nat)
  | [], _, _ => []
  | [_], _, _ => []
  | u :: rest, cum, i =>
    let cum' := cum + (u.length : ℚ) / cps
    (if 0 < cum' then [(now + cum', i + 1)] else []) ++ mkTimersAux cps now rest cum' (i + 1)

/-- `_scheduleHighlightingForChunk(text, buffer)`, reading `startOffset` and
`totalSentencesProcessed` from the state and the clock `now` for timer
deadlines. -/
def scheduleHighlightingForChunk (s : SvcState) (text : List Char)
    (buffer : AudioBuffer) (now : ℚ) : SvcState × List Ev :=
  let s := { s with highlightTimeouts := [] }
  if !s.hasCallbacks then (s, [])
  else
    let sentences := sentencesOf text
    let totalChars : ℚ := (text.length : ℚ)
    let audioDuration := buffer.duration
    if totalChars ≤ 0 ∨ audioDuration ≤ 0 then (s, [])
    else
      let charsPerSecond := totalChars / audioDuration
      let startingSentenceIndex :=
        findStartAux s.startOffset
          (sentences.map fun u => (u.length : ℚ) / charsPerSecond) 0 0
      let timers :=
        mkTimersAux charsPerSecond now (sentences.drop startingSentenceIndex)
          (-s.startOffset) startingSentenceIndex
      ({ s with highlightTimeouts := timers },
       [Ev.sentenceChange (s.totalSentencesProcessed + startingSentenceIndex)])

/-- `_playChunk(item)` at clock time `now`: attaches the buffer to a fresh
source node, arms its completion handler, starts it at
`max(nextPlaybackTime, now)` with in-buffer offset
`max(0, startOffset % duration)`, records `playbackStartTime`, schedules
highlighting, advances the cursor by `duration - effectiveStartOffset`, and
consumes the initial session offset after the first chunk. -/
def playChunk (s : SvcState) (item : ReadyItem) (now : ℚ) : SvcState × List Ev :=
  let s := { s with
    currentBuffer := some item.buffer
    currentTextChunk := some item.text
    currentAbsoluteChunkIndex := (item.chunkIndex : ℤ)
    hasCurrentSource := true
    onendedArmed := true }
  let d := item.buffer.duration
  let effectiveStartOffset := max 0 (jsMod s.startOffset d)
  let npt := if s.nextPlaybackTime < now then now else s.nextPlaybackTime
  let s := { s with
    playbackStartTime := now - effectiveStartOffset
    currentEndsAt := npt + (d - effectiveStartOffset) }
  let r := scheduleHighlightingForChunk s item.text item.buffer now
  let s := { r.1 with nextPlaybackTime := npt + (d - effectiveStartOffset) }
  let s := if s.isFirstChunkOfSession then
      { s with startOffset := 0, isFirstChunkOfSession := false }
    else s
  (s, Ev.playStarted item.chunkIndex item.buffer npt effectiveStartOffset :: r.2)

/-- The tail of `_tryToPlayNextChunk` after a successful decode: the
re-checks of `isSessionActive` and `isPlayingChunk` (which the atomic decode
leaves unchanged), the `wasFirstChunk` test, removal of the head chunk from
the queue, the increment of `nextChunkToPlayIndex`, and the hand-off to
`_playChunk`. -/
def releaseHead (s : SvcState) (item : AudioQueueItem) (buf : AudioBuffer)
    (now : ℚ) (evs : List Ev) : SvcState × List Ev :=
  if !s.isSessionActive then (s, evs)
  else if s.isPlayingChunk then (s, evs)
  else
    let wasFirstChunk := s.currentBuffer.isNone
    let s := { s with
      isPlayingChunk := true
      audioQueue := qdel s.audioQueue s.nextChunkToPlayIndex
      nextChunkToPlayIndex := s.nextChunkToPlayIndex + 1 }
    let evs := evs ++ (if wasFirstChunk && s.hasCallbacks then [Ev.firstChunkReady] else [])
    let r := playChunk s ⟨item.text, item.chunkIndex, buf⟩ now
    (r.1, evs ++ Ev.released item.chunkIndex :: r.2)

/-- `_tryToPlayNextChunk()`: no-op while inactive, playing or decoding; ends
and tears down the session when end-of-stream is signalled and the queue is
empty; otherwise waits unless the chunk at `nextChunkToPlayIndex` is queued,
in which case it is decoded if necessary (a decode failure aborts the whole
session via `_resetState`) and handed to `_playChunk`. -/
def tryToPlayNextChunk (s : SvcState) (now : ℚ) : SvcState × List Ev :=
  if !s.isSessionActive || s.isPlayingChunk || s.isDecoding then (s, [])
  else if s.isEndOfStream && s.audioQueue.length == 0 then
    (resetState s, if s.hasCallbacks then [Ev.sessionEnded] else [])
  else
    match qget s.audioQueue s.nextChunkToPlayIndex with
    | none => (s, [])
    | some item =>
      match item.buffer with
      | some buf => releaseHead s item buf now []
      | none =>
        match decodePayload item.base64 with
        | none => (resetState s, [Ev.decodeCall item.chunkIndex])
        | some buf =>
          let q := qset s.audioQueue s.nextChunkToPlayIndex { item with buffer := some buf }
          releaseHead { s with audioQueue := q } item buf now [Ev.decodeCall item.chunkIndex]

/-- `startStreamingPlayback(onFirstChunk, onEnded, onSentenceChange,
initialOffset)`: hard stop of any prior session, then fresh session state
with the three callbacks installed and the cursor reset to the clock. -/
def startStreamingPlayback (s : SvcState) (initialOffset now : ℚ) : SvcState × List Ev :=
  let s := resetState s
  ({ s with
      isSessionActive := true
      startOffset := initialOffset
      totalSentencesProcessed := 0
      hasCallbacks := true
      nextPlaybackTime := now }, [])

/-- `addAudioChunkToQueue(base64Audio, textChunk, chunkIndex)`. -/
def addAudioChunkToQueue (s : SvcState) (base64Audio : Option (List Nat))
    (textChunk : List Char) (chunkIndex : Nat) (now : ℚ) : SvcState × List Ev :=
  if !s.isSessionActive then (s, [])
  else
    let q := qset s.audioQueue chunkIndex ⟨base64Audio, textChunk, chunkIndex, none⟩
    tryToPlayNextChunk { s with audioQueue := q } now

/-- `signalEndOfStream()`. -/
def signalEndOfStream (s : SvcState) (now : ℚ) : SvcState × List Ev :=
  if !s.isSessionActive then (s, [])
  else tryToPlayNextChunk { s with isEndOfStream := true } now

/-- `pauseAudio()`: captures the elapsed time as the resume offset, cancels
the highlight timers, detaches the completion handler and stops the node
(the node reference itself is kept). -/
def pauseAudio (s : SvcState) (now : ℚ) : SvcState × List Ev :=
  if !s.hasCurrentSource || s.isPaused || s.currentBuffer.isNone then (s, [])
  else
    ({ s with
        startOffset := now - s.playbackStartTime
        isPaused := true
        highlightTimeouts := []
        onendedArmed := false }, [])

/-- `resumeAudio()`: replays the already-decoded current buffer through
`_playChunk` after resetting the scheduling cursor to the clock. -/
def resumeAudio (s : SvcState) (now : ℚ) : SvcState × List Ev :=
  match s.currentBuffer, s.currentTextChunk with
  | some buf, some txt =>
    if !s.isPaused || s.currentAbsoluteChunkIndex == -1 then (s, [])
    else
      let s := { s with isPaused := false, nextPlaybackTime := now }
      playChunk s ⟨txt, s.currentAbsoluteChunkIndex.toNat, buf⟩ now
  | _, _ => (s, [])

/-- `stopAudio()`. -/
def stopAudio (s : SvcState) : SvcState := resetState s

/-- The `onended` handler installed by `_playChunk`, firing only while still
attached: outside a pause it marks the chunk finished, zeroes the offset,
adds the finished chunk's sentence count (`currentTextChunk?.match(...) ||
[]`) to `totalSentencesProcessed`, and re-runs the sequencer. -/
def onSourceEnded (s : SvcState) (now : ℚ) : SvcState × List Ev :=
  if !s.onendedArmed then (s, [])
  else
    let s := { s with onendedArmed := false }
    if s.isPaused then (s, [])
    else
      let total := s.totalSentencesProcessed + (splitUnits (s.currentTextChunk.getD [])).length
      tryToPlayNextChunk
        { s with
            isPlayingChunk := false
            startOffset := 0
            totalSentencesProcessed := total } now

/-- A pending highlight timer fires: it is removed from the pending list and
reports `totalSentencesProcessed` (read at fire time) plus its stored
within-chunk index. -/
def fireTimer (s : SvcState) (k : Nat) : SvcState × List Ev :=
  match s.highlightTimeouts.get? k with
  | none => (s, [])
  | some e =>
    ({ s with highlightTimeouts := s.highlightTimeouts.eraseIdx k },
     if s.hasCallbacks then [Ev.sentenceChange (s.totalSentencesProcessed + e.2)] else [])

/-- The external stimuli of the service: its exported API, the completion
callback of the hardware source node, and the firing of a pending highlight
timer (`timer k` fires the `k`-th pending entry). -/
inductive Act where
  | start : ℚ → Act
  | add : Option (List Nat) → List Char → Nat → Act
  | signalEnd : Act
  | pause : Act
  | resume : Act
  | stop : Act
  | ended : Act
  | timer : Nat → Act
deriving DecidableEq, Repr

/-- One stimulus applied at clock time `now`. -/
def step (s : SvcState) (a : Act) (now : ℚ) : SvcState × List Ev :=
  match a with
  | Act.start o => startStreamingPlayback s o now
  | Act.add p txt i => addAudioChunkToQueue s p txt i now
  | Act.signalEnd => signalEndOfStream s now
  | Act.pause => pauseAudio s now
  | Act.resume => resumeAudio s now
  | Act.stop => (stopAudio s, [])
  | Act.ended => onSourceEnded s now
  | Act.timer k => fireTimer s k

/-- Run a timed stimulus list, collecting all events in order. -/
def runTrace (s : SvcState) : List (Act × ℚ) → SvcState × List Ev
  | [] => (s, [])
  | (a, t) :: r =>
    let p := step s a t
    let q := runTrace p.1 r
    (q.1, p.2 ++ q.2)

/-- Realisability of one stimulus at time `t`: no pending timer deadline has
passed unserved, a `timer k` stimulus fires the `k`-th pending timer exactly
at its deadline, and `ended` fires exactly when the currently scheduled
source node ends, while its handler is still attached. -/
def validAct (s : SvcState) (a : Act) (t : ℚ) : Bool :=
  s.highlightTimeouts.all (fun p => t ≤ p.1) &&
  match a with
  | Act.timer k =>
    match s.highlightTimeouts.get? k with
    | some p => p.1 == t
    | none => false
  | Act.ended => s.onendedArmed && t == s.currentEndsAt
  | _ => true

/-- Realisability of a timed stimulus list starting no earlier than `tprev`:
time is non-decreasing and every stimulus is realisable in the state it
meets. -/
def validTrace (s : SvcState) (tprev : ℚ) : List (Act × ℚ) → Bool
  | [] => true
  | (a, t) :: r =>
    decide (tprev ≤ t) && validAct s a t && validTrace (step s a t).1 t r

/-- The chunk indices handed to `_playChunk` from the queue, in order. -/
def releasedOf (evs : List Ev) : List Nat :=
  evs.filterMap fun e => match e with | Ev.released i => some i | _ => none

/-- The sentence indices delivered to the sentence-change callback, in
order. -/
def sentenceIdxOf (evs : List Ev) : List Nat :=
  evs.filterMap fun e => match e with | Ev.sentenceChange i => some i | _ => none

/-- Whether the decode pipeline was invoked. -/
def hasDecodeCall (evs : List Ev) : Bool :=
  evs.any fun e => match e with | Ev.decodeCall _ => true | _ => false

/-- Whether an event is an invocation of one of the three callbacks handed
to `startStreamingPlayback` — everything the session controller can
observe. -/
def isControllerEv : Ev → Bool
  | Ev.firstChunkReady => true
  | Ev.sessionEnded => true
  | Ev.sentenceChange _ => true
  | _ => false

/-- An `AudioQueueItem` that will decode successfully when it reaches the
head of the queue. -/
def itemDecodes (it : AudioQueueItem) : Bool :=
  match it.buffer with
  | some _ => true
  | none => (decodePayload it.base64).isSome

/-- `_tryToPlayNextChunk` will hand a chunk to `_playChunk` exactly when the
session is active, nothing is playing or decoding, the session is not about
to end, and the chunk at `nextChunkToPlayIndex` is queued (and decodes). -/
def headReleasable (s : SvcState) : Bool :=
  s.isSessionActive && !s.isPlayingChunk && !s.isDecoding &&
  !(s.isEndOfStream && s.audioQueue.length == 0) &&
  (match qget s.audioQueue s.nextChunkToPlayIndex with
   | some it => itemDecodes it
   | none => false)

/-- Queue well-formedness: every entry is stored under its own chunk index
(true of every reachable state, since `addAudioChunkToQueue` keys the item
by its index). -/
def qkeysOk (s : SvcState) : Prop :=
  ∀ p ∈ s.audioQueue, (p : Nat × AudioQueueItem).2.chunkIndex = p.1

/-- Every queued entry will decode when it reaches the head. -/
def queueWf (s : SvcState) : Prop :=
  ∀ p ∈ s.audioQueue, itemDecodes (p : Nat × AudioQueueItem).2 = true

/-- Stimuli that occur while streaming into one session: admissions, the
end-of-stream signal, source-node completions and highlight-timer firings
(no new session, no user stop, no pause/resume). -/
def streamAct : Act → Prop
  | Act.add _ _ _ => True
  | Act.signalEnd => True
  | Act.ended => True
  | Act.timer _ => True
  | _ => False

/-- Admission payloads in a trace all decode. -/
def wfAdds (tr : List (Act × ℚ)) : Prop :=
  ∀ p txt i t, (Act.add p txt i, t) ∈ tr → (decodePayload p).isSome = true

/-- A malformed admission used as a concrete input in witnesses: its single
byte cannot form a 16-bit frame, so the decode pipeline rejects it. -/
def badItem : AudioQueueItem := ⟨some [1], ['h', 'i', '.'], 0, none⟩

/-- A well-formed two-byte payload: one 24 kHz frame, duration 1/24000 s. -/
def tinyPayload : Option (List Nat) := some [0, 0]

/-- A concrete run exercising re-admission of an already-played index:
chunk 0 ("A.", duration 1/24000 s) is admitted, plays and completes
naturally; index 0 is then admitted again, and end-of-stream is
signalled. -/
def c6trace : List (Act × ℚ) :=
  [ (Act.start 0, 0)
  , (Act.add tinyPayload ['A', '.'] 0, 0)
  , (Act.ended, 1/24000)
  , (Act.add tinyPayload ['A', '.'] 0, 2/24000)
  , (Act.signalEnd, 3/24000) ]

/-- Twenty characters in five four-character sentence units. -/
def fiveUnitText : List Char :=
  ['A', 'A', 'A', '.', 'B', 'B', 'B', '.', 'C', 'C', 'C', '.', 'D', 'D', 'D', '.',
   'E', 'E', 'E', '.']

/-- Ten bytes: five 24 kHz frames, duration 5/24000 s, so with
`fiveUnitText` each of the five units is estimated at 1/24000 s. -/
def fiveUnitPayload : Option (List Nat) := some [0, 0, 0, 0, 0, 0, 0, 0, 0, 0]

/-- A concrete run of one chunk with five equal sentence units (unit
duration τ = 1/24000 s): play from 0; the unit-1 timer fires at τ; pause at
1.2τ; resume at 1.3τ (the resume point lies inside unit 1); a rescheduled
timer fires at 2.1τ; pause again at 2.3τ; resume at 2.4τ.  All timers fire
exactly at their deadlines and no deadline is skipped. -/
def c7trace : List (Act × ℚ) :=
  [ (Act.start 0, 0)
  , (Act.add fiveUnitPayload fiveUnitText 0, 0)
  , (Act.timer 0, 10/240000)
  , (Act.pause, 12/240000)
  , (Act.resume, 13/240000)
  , (Act.timer 0, 21/240000)
  , (Act.pause, 23/240000)
  , (Act.resume, 24/240000) ]

/-- A session state paused 1.2/24000 s into a chunk, as left by `pauseAudio`
(witness input for highlight rescheduling). -/
def c8state : SvcState :=
  { initState with isSessionActive := true, hasCallbacks := true, startOffset := 12/240000 }

/-- The per-unit estimated durations that `_scheduleHighlightingForChunk`
computes for a chunk: unit length divided by the uniform
characters-per-second rate. -/
def unitDurs (txt : List Char) (buf : AudioBuffer) : List ℚ :=
  (sentencesOf txt).map fun u => (u.length : ℚ) / (((txt.length : ℚ)) / buf.duration)

/-- Sum of the estimated durations of the first `m` sentence units. -/
def cumBefore (durs : List ℚ) (m : Nat) : ℚ := (durs.take m).sum

/-- The `startingSentenceIndex` that `_scheduleHighlightingForChunk` computes
from the state offset and the per-unit estimated durations. -/
def startIdx (s : SvcState) (txt : List Char) (buf : AudioBuffer) : Nat :=
  findStartAux s.startOffset (unitDurs txt buf) 0 0

/-- The delay the code actually gives the timer for the boundary into unit
`m + r + 1` when the starting unit is `m`: the cumulative duration up to that
boundary minus the cumulative duration of the skipped units `0..m-1` minus
the start offset. -/
def codeDelay (durs : List ℚ) (offset : ℚ) (m r : Nat) : ℚ :=
  cumBefore durs (m + r + 1) - cumBefore durs m - offset

/-- Closed form of the timer list the code builds for starting unit `m`: one
entry per later boundary whose `codeDelay` is positive, firing at `now +
codeDelay` and reporting within-chunk index `m + r + 1`. -/
def codeTimers (durs : List ℚ) (offset now : ℚ) (m : Nat) : List (ℚ × Nat) :=
  (List.range (durs.length - m - 1)).filterMap fun r =>
    if 0 < codeDelay durs offset m r
    then some (now + codeDelay durs offset m r, m + r + 1) else none

/-- The timer list the claim describes: every later boundary gets a timer,
firing its cumulative-duration-from-the-offset seconds after scheduling. -/
def claimedTimers (durs : List ℚ) (offset now : ℚ) (m : Nat) : List (ℚ × Nat) :=
  (List.range (durs.length - m - 1)).map fun r =>
    (now + (cumBefore durs (m + r + 1) - offset), m + r + 1)

/-- A live session whose head chunk is the malformed `badItem` (a concrete
witness input). -/
def badHeadState : SvcState :=
  { initState with isSessionActive := true, audioQueue := [(0, badItem)] }

/-! ## Arithmetic helpers -/

lemma ite_lt_eq_max (a b : ℚ) : (if a < b then b else a) = max a b := by
  rcases lt_or_le a b with h | h
  · simp [h, max_eq_right h.le]
  · simp [not_lt.mpr h, max_eq_left h]

lemma jsTrunc_eq_floor {q : ℚ} (h : 0 ≤ q) : jsTrunc q = ⌊q⌋ := by
  unfold jsTrunc
  rw [Int.tdiv_eq_ediv (Rat.num_nonneg.mpr h) (Int.natCast_nonneg q.den)]
  exact Rat.floor_def.symm

lemma jsMod_eq_floor_mod {a b : ℚ} (ha : 0 ≤ a) (hb : 0 < b) :
    jsMod a b = a - b * ⌊a / b⌋ := by
  unfold jsMod
  rw [jsTrunc_eq_floor (div_nonneg ha hb.le)]

lemma jsMod_nonneg {a b : ℚ} (ha : 0 ≤ a) (hb : 0 < b) : 0 ≤ jsMod a b := by
  rw [jsMod_eq_floor_mod ha hb]
  have h1 : (⌊a / b⌋ : ℚ) ≤ a / b := Int.floor_le _
  have h2 : b * (⌊a / b⌋ : ℚ) ≤ b * (a / b) := mul_le_mul_of_nonneg_left h1 hb.le
  have h3 : b * (a / b) = a := by field_simp
  linarith

lemma jsMod_lt {a b : ℚ} (ha : 0 ≤ a) (hb : 0 < b) : jsMod a b < b := by
  rw [jsMod_eq_floor_mod ha hb]
  have h1 : a / b < (⌊a / b⌋ : ℚ) + 1 := Int.lt_floor_add_one _
  have h2 : b * (a / b) < b * ((⌊a / b⌋ : ℚ) + 1) := mul_lt_mul_of_pos_left h1 hb
  have h3 : b * (a / b) = a := by field_simp
  nlinarith

lemma jsMod_self_of_lt {a b : ℚ} (ha : 0 ≤ a) (hab : a < b) : jsMod a b = a := by
  have hb : 0 < b := lt_of_le_of_lt ha hab
  rw [jsMod_eq_floor_mod ha hb]
  have h0 : ⌊a / b⌋ = 0 := by
    rw [Int.floor_eq_zero_iff]
    exact Set.mem_Ico.mpr ⟨div_nonneg ha hb.le, by rwa [div_lt_one hb]⟩
  rw [h0]
  ring

/-! ## Shape lemmas for the operations -/

lemma schedule_shape (s : SvcState) (txt : List Char) (buf : AudioBuffer) (now : ℚ) :
    ∃ ht evs,
      scheduleHighlightingForChunk s txt buf now = ({ s with highlightTimeouts := ht }, evs) ∧
        (evs = [] ∨ ∃ i, evs = [Ev.sentenceChange i]) := by
  simp only [scheduleHighlightingForChunk]
  split
  · exact ⟨[], [], rfl, Or.inl rfl⟩
  · split
    · exact ⟨[], [], rfl, Or.inl rfl⟩
    · exact ⟨_, _, rfl, Or.inr ⟨_, rfl⟩⟩

lemma schedule_degenerate (s : SvcState) (txt : List Char) (buf : AudioBuffer) (now : ℚ)
    (h : ((txt.length : ℚ)) ≤ 0 ∨ buf.duration ≤ 0) :
    scheduleHighlightingForChunk s txt buf now = ({ s with highlightTimeouts := [] }, []) := by
  simp only [scheduleHighlightingForChunk]
  split
  · rfl
  · simp [if_pos h]

lemma playChunk_shape (s : SvcState) (it : ReadyItem) (now : ℚ) :
    ∃ ht evs,
      playChunk s it now =
        ({ s with
            currentBuffer := some it.buffer
            currentTextChunk := some it.text
            currentAbsoluteChunkIndex := (it.chunkIndex : ℤ)
            hasCurrentSource := true
            onendedArmed := true
            playbackStartTime := now - max 0 (jsMod s.startOffset it.buffer.duration)
            currentEndsAt := max s.nextPlaybackTime now +
              (it.buffer.duration - max 0 (jsMod s.startOffset it.buffer.duration))
            highlightTimeouts := ht
            nextPlaybackTime := max s.nextPlaybackTime now +
              (it.buffer.duration - max 0 (jsMod s.startOffset it.buffer.duration))
            startOffset := if s.isFirstChunkOfSession then 0 else s.startOffset
            isFirstChunkOfSession := false },
         Ev.playStarted it.chunkIndex it.buffer (max s.nextPlaybackTime now)
           (max 0 (jsMod s.startOffset it.buffer.duration)) :: evs) ∧
      (evs = [] ∨ ∃ i, evs = [Ev.sentenceChange i]) := by
  simp only [playChunk]
  obtain ⟨ht, evs, hEq, hE⟩ := schedule_shape
    { s with
        currentBuffer := some it.buffer
        currentTextChunk := some it.text
        currentAbsoluteChunkIndex := (it.chunkIndex : ℤ)
        hasCurrentSource := true
        onendedArmed := true
        playbackStartTime := now - max 0 (jsMod s.startOffset it.buffer.duration)
        currentEndsAt := (if s.nextPlaybackTime < now then now else s.nextPlaybackTime) +
          (it.buffer.duration - max 0 (jsMod s.startOffset it.buffer.duration)) }
    it.text it.buffer now
  refine ⟨ht, evs, ?_, hE⟩
  rw [hEq]
  rcases lt_or_le s.nextPlaybackTime now with hc | hc
  · by_cases hf : s.isFirstChunkOfSession = true <;>
      simp [hc, max_eq_right hc.le, hf]
  · by_cases hf : s.isFirstChunkOfSession = true <;>
      simp [not_lt.mpr hc, max_eq_left hc, hf]

lemma qget_mem : ∀ {m : List (Nat × AudioQueueItem)} {k : Nat} {it : AudioQueueItem},
    qget m k = some it → (k, it) ∈ m := by
  intro m
  induction m with
  | nil => intro k it h; simp [qget] at h
  | cons p r ih =>
    intro k it h
    rw [qget] at h
    split at h
    · rename_i hk
      injection h with h2
      subst h2
      subst hk
      simp
    · exact List.mem_cons_of_mem _ (ih h)

lemma mem_playChunk_ev {s : SvcState} {it : ReadyItem} {now : ℚ} {e : Ev}
    (h : e ∈ (playChunk s it now).2) :
    e = Ev.playStarted it.chunkIndex it.buffer (max s.nextPlaybackTime now)
        (max 0 (jsMod s.startOffset it.buffer.duration))
    ∨ ∃ i, e = Ev.sentenceChange i := by
  obtain ⟨ht, evs, hEq, hE⟩ := playChunk_shape s it now
  rw [hEq] at h
  rcases List.mem_cons.mp h with h | h
  · exact Or.inl h
  · rcases hE with hE | ⟨i, hE⟩
    · rw [hE] at h
      exact absurd h (List.not_mem_nil _)
    · rw [hE] at h
      rcases List.mem_cons.mp h with h | h
      · exact Or.inr ⟨i, h⟩
      · exact absurd h (List.not_mem_nil _)

lemma releaseHead_ev {s : SvcState} {item : AudioQueueItem} {buf : AudioBuffer} {now : ℚ}
    {evs : List Ev} {e : Ev} (h : e ∈ (releaseHead s item buf now evs).2) :
    e ∈ evs ∨ e = Ev.firstChunkReady ∨ e = Ev.released item.chunkIndex
    ∨ (∃ n b q o, e = Ev.playStarted n b q o) ∨ ∃ i, e = Ev.sentenceChange i := by
  simp only [releaseHead] at h
  split at h
  · exact Or.inl h
  · split at h
    · exact Or.inl h
    · simp only [List.mem_append, List.mem_cons] at h
      rcases h with (h | h) | h | h
      · exact Or.inl h
      · split at h
        · rcases List.mem_cons.mp h with h | h
          · exact Or.inr (Or.inl h)
          · exact absurd h (List.not_mem_nil _)
        · exact absurd h (List.not_mem_nil _)
      · exact Or.inr (Or.inr (Or.inl h))
      · rcases mem_playChunk_ev h with h | ⟨i, h⟩
        · exact Or.inr (Or.inr (Or.inr (Or.inl ⟨_, _, _, _, h⟩)))
        · exact Or.inr (Or.inr (Or.inr (Or.inr ⟨i, h⟩)))

lemma releaseHead_no_sessionEnded {s : SvcState} {item : AudioQueueItem} {buf : AudioBuffer}
    {now : ℚ} {evs : List Ev} (hn : Ev.sessionEnded ∉ evs) :
    Ev.sessionEnded ∉ (releaseHead s item buf now evs).2 := by
  intro h
  rcases releaseHead_ev h with h | h | h | ⟨n, b, q, o, h⟩ | ⟨i, h⟩
  · exact hn h
  all_goals simp at h

lemma releaseHead_active (s : SvcState) (item : AudioQueueItem) (buf : AudioBuffer)
    (now : ℚ) (evs : List Ev) :
    (releaseHead s item buf now evs).1.isSessionActive = s.isSessionActive := by
  simp only [releaseHead]
  split
  · rfl
  · split
    · rfl
    · obtain ⟨ht, evs₂, hEq, -⟩ := playChunk_shape
        { s with isPlayingChunk := true,
                 audioQueue := qdel s.audioQueue s.nextChunkToPlayIndex,
                 nextChunkToPlayIndex := s.nextChunkToPlayIndex + 1 }
        ⟨item.text, item.chunkIndex, buf⟩ now
      rw [hEq]

lemma tryToPlay_sessionEnded_iff (s : SvcState) (now : ℚ) :
    Ev.sessionEnded ∈ (tryToPlayNextChunk s now).2 ↔
      (s.isSessionActive = true ∧ s.isPlayingChunk = false ∧ s.isDecoding = false ∧
       s.isEndOfStream = true ∧ s.audioQueue.length = 0 ∧ s.hasCallbacks = true) := by
  simp only [tryToPlayNextChunk]
  split
  · rename_i hguard
    constructor
    · intro h
      exact absurd h (List.not_mem_nil _)
    · rintro ⟨h1, h2, h3, -, -, -⟩
      rw [h1, h2, h3] at hguard
      simp at hguard
  · rename_i hguard
    have h1 : s.isSessionActive = true := by
      cases hh : s.isSessionActive
      · exact absurd (by simp [hh]) hguard
      · rfl
    have h2 : s.isPlayingChunk = false := by
      cases hh : s.isPlayingChunk
      · rfl
      · exact absurd (by simp [hh]) hguard
    have h3 : s.isDecoding = false := by
      cases hh : s.isDecoding
      · rfl
      · exact absurd (by simp [hh]) hguard
    split
    · rename_i hcond
      simp only [Bool.and_eq_true, beq_iff_eq] at hcond
      by_cases hc : s.hasCallbacks = true
      · simp [hc, h1, h2, h3, hcond.1, hcond.2]
      · simp [hc, h1, h2, h3]
    · rename_i hcond
      have hR : ¬(s.isSessionActive = true ∧ s.isPlayingChunk = false ∧ s.isDecoding = false ∧
          s.isEndOfStream = true ∧ s.audioQueue.length = 0 ∧ s.hasCallbacks = true) := by
        rintro ⟨-, -, -, h4, h5, -⟩
        exact hcond (by simp [h4, h5])
      split
      · simpa using hR
      · rename_i item hq
        split
        · rename_i buf hb
          simp only [iff_false_intro hR, iff_false]
          exact releaseHead_no_sessionEnded (List.not_mem_nil _)
        · split
          · rename_i hdec
            constructor
            · intro h
              rcases List.mem_cons.mp h with h | h
              · exact absurd h (by simp)
              · exact absurd h (List.not_mem_nil _)
            · intro h
              exact absurd h hR
          · rename_i buf hdec
            have hne : Ev.sessionEnded ∉ [Ev.decodeCall item.chunkIndex] := by simp
            simp only [iff_false_intro hR, iff_false]
            exact releaseHead_no_sessionEnded hne

lemma tryToPlay_active (s : SvcState) (now : ℚ) (hwf : queueWf s)
    (h1 : s.isSessionActive = true)
    (hc : s.isPlayingChunk = true ∨ ¬(s.isEndOfStream = true ∧ s.audioQueue.length = 0)) :
    (tryToPlayNextChunk s now).1.isSessionActive = true := by
  simp only [tryToPlayNextChunk]
  split
  · exact h1
  · rename_i hguard
    have h2 : s.isPlayingChunk = false := by
      cases hh : s.isPlayingChunk
      · rfl
      · exact absurd (by simp [hh]) hguard
    have hc2 : ¬(s.isEndOfStream = true ∧ s.audioQueue.length = 0) := by
      rcases hc with hc | hc
      · rw [hc] at h2
        exact absurd h2 (by simp)
      · exact hc
    split
    · rename_i hcond
      exact absurd (by simpa using hcond) hc2
    · split
      · exact h1
      · rename_i item hq
        split
        · rw [releaseHead_active]
          exact h1
        · rename_i hb
          split
          · rename_i hdec
            have hdec2 := hwf _ (qget_mem hq)
            simp [itemDecodes, hb, hdec] at hdec2
          · rw [releaseHead_active]
            exact h1

lemma releasedOf_append (a b : List Ev) :
    releasedOf (a ++ b) = releasedOf a ++ releasedOf b :=
  List.filterMap_append _ _ _

lemma releasedOf_cons_released (i : Nat) (evs : List Ev) :
    releasedOf (Ev.released i :: evs) = i :: releasedOf evs := rfl

lemma releasedOf_playChunk (s : SvcState) (it : ReadyItem) (now : ℚ) :
    releasedOf (playChunk s it now).2 = [] := by
  obtain ⟨ht, evs, hEq, hE⟩ := playChunk_shape s it now
  rw [hEq]
  rcases hE with h | ⟨i, h⟩ <;> simp [h, releasedOf]

lemma playChunk_proj (s : SvcState) (it : ReadyItem) (now : ℚ) :
    (playChunk s it now).1.nextChunkToPlayIndex = s.nextChunkToPlayIndex
    ∧ (playChunk s it now).1.audioQueue = s.audioQueue
    ∧ (playChunk s it now).1.isSessionActive = s.isSessionActive := by
  obtain ⟨ht, evs, hEq, -⟩ := playChunk_shape s it now
  rw [hEq]
  exact ⟨rfl, rfl, rfl⟩

lemma releaseHead_stream (s : SvcState) (item : AudioQueueItem) (buf : AudioBuffer)
    (now : ℚ) (evs : List Ev) (h1 : s.isSessionActive = true) (h2 : s.isPlayingChunk = false)
    (hre : releasedOf evs = []) :
    releasedOf (releaseHead s item buf now evs).2 = [item.chunkIndex]
    ∧ (releaseHead s item buf now evs).1.nextChunkToPlayIndex = s.nextChunkToPlayIndex + 1
    ∧ (releaseHead s item buf now evs).1.audioQueue = qdel s.audioQueue s.nextChunkToPlayIndex := by
  simp only [releaseHead, h1, h2]
  simp only [Bool.not_true, Bool.false_eq_true, if_false, if_neg]
  refine ⟨?_, ?_, ?_⟩
  · rw [releasedOf_append, releasedOf_append, hre]
    have hfc : releasedOf
        (if s.currentBuffer.isNone && s.hasCallbacks then [Ev.firstChunkReady] else []) = [] := by
      split <;> simp [releasedOf]
    rw [hfc, releasedOf_cons_released, releasedOf_playChunk]
    rfl
  · rw [(playChunk_proj _ _ _).1]
  · rw [(playChunk_proj _ _ _).2.1]

lemma tryToPlay_stream_spec (s : SvcState) (now : ℚ)
    (hkeys : qkeysOk s) (hwf : queueWf s) :
    qkeysOk (tryToPlayNextChunk s now).1 ∧ queueWf (tryToPlayNextChunk s now).1 ∧
    ((releasedOf (tryToPlayNextChunk s now).2 = [s.nextChunkToPlayIndex] ∧
        (tryToPlayNextChunk s now).1.nextChunkToPlayIndex = s.nextChunkToPlayIndex + 1)
      ∨ (releasedOf (tryToPlayNextChunk s now).2 = [] ∧
        (tryToPlayNextChunk s now).1.nextChunkToPlayIndex = s.nextChunkToPlayIndex)
      ∨ (releasedOf (tryToPlayNextChunk s now).2 = [] ∧
        (tryToPlayNextChunk s now).1.isSessionActive = false)) := by
  simp only [tryToPlayNextChunk]
  split
  · exact ⟨hkeys, hwf, Or.inr (Or.inl ⟨rfl, rfl⟩)⟩
  · rename_i hguard
    have h1 : s.isSessionActive = true := by
      cases hh : s.isSessionActive
      · exact absurd (by simp [hh]) hguard
      · rfl
    have h2 : s.isPlayingChunk = false := by
      cases hh : s.isPlayingChunk
      · rfl
      · exact absurd (by simp [hh]) hguard
    split
    · refine ⟨?_, ?_, Or.inr (Or.inr ⟨?_, rfl⟩)⟩
      · intro p hp
        simp [resetState, initState] at hp
      · intro p hp
        simp [resetState, initState] at hp
      · split <;> simp [releasedOf]
    · split
      · exact ⟨hkeys, hwf, Or.inr (Or.inl ⟨rfl, rfl⟩)⟩
      · rename_i item hq
        have hkey : item.chunkIndex = s.nextChunkToPlayIndex := hkeys _ (qget_mem hq)
        split
        · rename_i buf hb
          obtain ⟨hrel, hnext, hqueue⟩ :=
            releaseHead_stream s item buf now [] h1 h2 rfl
          refine ⟨?_, ?_, Or.inl ⟨by rw [hrel, hkey], hnext⟩⟩
          · intro p hp
            rw [hqueue] at hp
            exact hkeys _ (List.mem_of_mem_filter hp)
          · intro p hp
            rw [hqueue] at hp
            exact hwf _ (List.mem_of_mem_filter hp)
        · rename_i hb
          split
          · rename_i hdec
            have hdec2 := hwf _ (qget_mem hq)
            simp [itemDecodes, hb, hdec] at hdec2
          · rename_i buf hdec
            obtain ⟨hrel, hnext, hqueue⟩ :=
              releaseHead_stream { s with audioQueue := qset s.audioQueue s.nextChunkToPlayIndex { item with buffer := some buf } } item buf now [Ev.decodeCall item.chunkIndex] h1 h2 rfl
            refine ⟨?_, ?_, Or.inl ⟨by rw [hrel, hkey], hnext⟩⟩
            · intro p hp
              rw [hqueue] at hp
              have hp2 := List.mem_of_mem_filter hp
              rcases List.mem_cons.mp hp2 with hp3 | hp3
              · rw [hp3]
                exact hkey
              · exact hkeys _ (List.mem_of_mem_filter hp3)
            · intro p hp
              rw [hqueue] at hp
              have hp2 := List.mem_of_mem_filter hp
              rcases List.mem_cons.mp hp2 with hp3 | hp3
              · rw [hp3]
                simp [itemDecodes]
              · exact hwf _ (List.mem_of_mem_filter hp3)

lemma step_inactive (s : SvcState) (a : Act) (t : ℚ) (h : s.isSessionActive = false)
    (ha : ∀ o, a ≠ Act.start o) :
    releasedOf (step s a t).2 = [] ∧ (step s a t).1.isSessionActive = false := by
  cases a with
  | start o => exact absurd rfl (ha o)
  | add p txt i =>
    simp only [step, addAudioChunkToQueue, h]
    exact ⟨rfl, h⟩
  | signalEnd =>
    simp only [step, signalEndOfStream, h]
    exact ⟨rfl, h⟩
  | pause =>
    simp only [step, pauseAudio]
    split
    · exact ⟨rfl, h⟩
    · exact ⟨rfl, h⟩
  | resume =>
    simp only [step, resumeAudio]
    split
    · split
      · exact ⟨rfl, h⟩
      · refine ⟨releasedOf_playChunk _ _ _, ?_⟩
        rw [(playChunk_proj _ _ _).2.2]
        exact h
    · exact ⟨rfl, h⟩
  | stop => exact ⟨rfl, rfl⟩
  | ended =>
    simp only [step, onSourceEnded]
    split
    · exact ⟨rfl, h⟩
    · split
      · exact ⟨rfl, h⟩
      · simp [tryToPlayNextChunk, h, releasedOf]
  | timer k =>
    simp only [step, fireTimer]
    split
    · exact ⟨rfl, h⟩
    · refine ⟨?_, h⟩
      split <;> rfl

lemma step_stream_spec (s : SvcState) (a : Act) (t : ℚ) (ha : streamAct a)
    (hkeys : qkeysOk s) (hwf : queueWf s)
    (hadd : ∀ p txt i, a = Act.add p txt i → (decodePayload p).isSome = true) :
    qkeysOk (step s a t).1 ∧ queueWf (step s a t).1 ∧
    ((releasedOf (step s a t).2 = [s.nextChunkToPlayIndex] ∧
        (step s a t).1.nextChunkToPlayIndex = s.nextChunkToPlayIndex + 1)
      ∨ (releasedOf (step s a t).2 = [] ∧
        (step s a t).1.nextChunkToPlayIndex = s.nextChunkToPlayIndex)
      ∨ (releasedOf (step s a t).2 = [] ∧ (step s a t).1.isSessionActive = false)) := by
  cases a with
  | start o => exact absurd ha (by simp [streamAct])
  | pause => exact absurd ha (by simp [streamAct])
  | resume => exact absurd ha (by simp [streamAct])
  | stop => exact absurd ha (by simp [streamAct])
  | add p txt i =>
    simp only [step, addAudioChunkToQueue]
    split
    · exact ⟨hkeys, hwf, Or.inr (Or.inl ⟨rfl, rfl⟩)⟩
    · have hk2 : qkeysOk { s with audioQueue := qset s.audioQueue i ⟨p, txt, i, none⟩ } := by
        intro q hq
        rcases List.mem_cons.mp hq with hh | hh
        · rw [hh]
        · exact hkeys _ (List.mem_of_mem_filter hh)
      have hw2 : queueWf { s with audioQueue := qset s.audioQueue i ⟨p, txt, i, none⟩ } := by
        intro q hq
        rcases List.mem_cons.mp hq with hh | hh
        · rw [hh]
          simp [itemDecodes, hadd p txt i rfl]
        · exact hwf _ (List.mem_of_mem_filter hh)
      exact tryToPlay_stream_spec _ t hk2 hw2
  | signalEnd =>
    simp only [step, signalEndOfStream]
    split
    · exact ⟨hkeys, hwf, Or.inr (Or.inl ⟨rfl, rfl⟩)⟩
    · exact tryToPlay_stream_spec { s with isEndOfStream := true } t hkeys hwf
  | ended =>
    simp only [step, onSourceEnded]
    split
    · exact ⟨hkeys, hwf, Or.inr (Or.inl ⟨rfl, rfl⟩)⟩
    · split
      · exact ⟨hkeys, hwf, Or.inr (Or.inl ⟨rfl, rfl⟩)⟩
      · exact tryToPlay_stream_spec { s with onendedArmed := false, isPlayingChunk := false, startOffset := 0, totalSentencesProcessed := s.totalSentencesProcessed + (splitUnits (s.currentTextChunk.getD [])).length } t hkeys hwf
  | timer k =>
    simp only [step, fireTimer]
    split
    · exact ⟨hkeys, hwf, Or.inr (Or.inl ⟨rfl, rfl⟩)⟩
    · refine ⟨hkeys, hwf, Or.inr (Or.inl ⟨?_, rfl⟩)⟩
      split <;> rfl

lemma releaseHead_next_ge (s : SvcState) (item : AudioQueueItem) (buf : AudioBuffer)
    (now : ℚ) (evs : List Ev) :
    s.nextChunkToPlayIndex ≤ (releaseHead s item buf now evs).1.nextChunkToPlayIndex := by
  simp only [releaseHead]
  split
  · exact le_rfl
  · split
    · exact le_rfl
    · rw [(playChunk_proj _ _ _).1]
      exact Nat.le_succ _

lemma tryToPlay_next_mono_or (s : SvcState) (now : ℚ) :
    s.nextChunkToPlayIndex ≤ (tryToPlayNextChunk s now).1.nextChunkToPlayIndex
    ∨ (tryToPlayNextChunk s now).1.isSessionActive = false := by
  simp only [tryToPlayNextChunk]
  split
  · exact Or.inl le_rfl
  · split
    · exact Or.inr rfl
    · split
      · exact Or.inl le_rfl
      · rename_i item hq
        split
        · rename_i buf hb
          exact Or.inl (releaseHead_next_ge s item buf now [])
        · rename_i hb
          split
          · exact Or.inr rfl
          · rename_i buf hdec
            exact Or.inl (releaseHead_next_ge { s with audioQueue := qset s.audioQueue s.nextChunkToPlayIndex { item with buffer := some buf } } item buf now [Ev.decodeCall item.chunkIndex])

lemma step_next_mono_or (s : SvcState) (a : Act) (t : ℚ) (ha : ∀ o, a ≠ Act.start o) :
    s.nextChunkToPlayIndex ≤ (step s a t).1.nextChunkToPlayIndex
    ∨ (step s a t).1.isSessionActive = false := by
  cases a with
  | start o => exact absurd rfl (ha o)
  | add p txt i =>
    simp only [step, addAudioChunkToQueue]
    split
    · exact Or.inl le_rfl
    · exact tryToPlay_next_mono_or { s with audioQueue := qset s.audioQueue i ⟨p, txt, i, none⟩ } t
  | signalEnd =>
    simp only [step, signalEndOfStream]
    split
    · exact Or.inl le_rfl
    · exact tryToPlay_next_mono_or { s with isEndOfStream := true } t
  | pause =>
    simp only [step, pauseAudio]
    split
    · exact Or.inl le_rfl
    · exact Or.inl le_rfl
  | resume =>
    simp only [step, resumeAudio]
    split
    · split
      · exact Or.inl le_rfl
      · left
        rw [(playChunk_proj _ _ _).1]
    · exact Or.inl le_rfl
  | stop => exact Or.inr rfl
  | ended =>
    simp only [step, onSourceEnded]
    split
    · exact Or.inl le_rfl
    · split
      · exact Or.inl le_rfl
      · exact tryToPlay_next_mono_or { s with onendedArmed := false, isPlayingChunk := false, startOffset := 0, totalSentencesProcessed := s.totalSentencesProcessed + (splitUnits (s.currentTextChunk.getD [])).length } t
  | timer k =>
    simp only [step, fireTimer]
    split
    · exact Or.inl le_rfl
    · exact Or.inl le_rfl

lemma runTrace_inactive : ∀ (tr : List (Act × ℚ)) (s : SvcState),
    s.isSessionActive = false → (∀ x ∈ tr, ∀ o, (x : Act × ℚ).1 ≠ Act.start o) →
    releasedOf (runTrace s tr).2 = [] ∧ (runTrace s tr).1.isSessionActive = false := by
  intro tr
  induction tr with
  | nil => intro s h _; exact ⟨rfl, h⟩
  | cons x r ih =>
    obtain ⟨a, t⟩ := x
    intro s h hns
    obtain ⟨h1, h2⟩ := step_inactive s a t h (hns (a, t) (List.mem_cons_self _ _))
    obtain ⟨h3, h4⟩ := ih (step s a t).1 h2 (fun y hy => hns y (List.mem_cons_of_mem _ hy))
    constructor
    · show releasedOf ((step s a t).2 ++ (runTrace (step s a t).1 r).2) = []
      rw [releasedOf_append, h1, h3]
      rfl
    · exact h4

lemma runTrace_released : ∀ (tr : List (Act × ℚ)) (s : SvcState),
    (∀ x ∈ tr, streamAct (x : Act × ℚ).1) → wfAdds tr → qkeysOk s → queueWf s →
    ∃ k, releasedOf (runTrace s tr).2 = List.range' s.nextChunkToPlayIndex k := by
  intro tr
  induction tr with
  | nil => intro s _ _ _ _; exact ⟨0, rfl⟩
  | cons x r ih =>
    obtain ⟨a, t⟩ := x
    intro s hst hwfa hkeys hwf
    have ha : streamAct a := hst (a, t) (List.mem_cons_self _ _)
    have hadd : ∀ p txt i, a = Act.add p txt i → (decodePayload p).isSome = true := by
      intro p txt i he
      exact hwfa p txt i t (by rw [← he]; exact List.mem_cons_self _ _)
    obtain ⟨hk1, hw1, hdi⟩ := step_stream_spec s a t ha hkeys hwf hadd
    have hstr : ∀ x ∈ r, streamAct (x : Act × ℚ).1 := fun y hy => hst y (List.mem_cons_of_mem _ hy)
    have hwfr : wfAdds r := fun p txt i tt hmem => hwfa p txt i tt (List.mem_cons_of_mem _ hmem)
    rcases hdi with ⟨hr1, hn1⟩ | ⟨hr1, hn1⟩ | ⟨hr1, hact⟩
    · obtain ⟨k, hk⟩ := ih (step s a t).1 hstr hwfr hk1 hw1
      refine ⟨k + 1, ?_⟩
      show releasedOf ((step s a t).2 ++ (runTrace (step s a t).1 r).2) = _
      rw [releasedOf_append, hr1, hk, hn1]
      rfl
    · obtain ⟨k, hk⟩ := ih (step s a t).1 hstr hwfr hk1 hw1
      refine ⟨k, ?_⟩
      show releasedOf ((step s a t).2 ++ (runTrace (step s a t).1 r).2) = _
      rw [releasedOf_append, hr1, hk, hn1]
      rfl
    · have hns : ∀ x ∈ r, ∀ o, (x : Act × ℚ).1 ≠ Act.start o := by
        intro y hy o he
        have hh := hstr y hy
        rw [he] at hh
        exact hh
      obtain ⟨h3, -⟩ := runTrace_inactive r (step s a t).1 hact hns
      refine ⟨0, ?_⟩
      show releasedOf ((step s a t).2 ++ (runTrace (step s a t).1 r).2) = _
      rw [releasedOf_append, hr1, h3]
      rfl

lemma tryToPlay_release_iff (s : SvcState) (now : ℚ) (hkeys : qkeysOk s) :
    releasedOf (tryToPlayNextChunk s now).2 =
      if headReleasable s then [s.nextChunkToPlayIndex] else [] := by
  simp only [tryToPlayNextChunk]
  split
  · rename_i hguard
    cases h1 : s.isSessionActive <;> cases h2 : s.isPlayingChunk <;>
      cases h3 : s.isDecoding <;> simp_all [headReleasable, releasedOf]
  · rename_i hguard
    have h1 : s.isSessionActive = true := by
      cases hh : s.isSessionActive
      · exact absurd (by simp [hh]) hguard
      · rfl
    have h2 : s.isPlayingChunk = false := by
      cases hh : s.isPlayingChunk
      · rfl
      · exact absurd (by simp [hh]) hguard
    have h3 : s.isDecoding = false := by
      cases hh : s.isDecoding
      · rfl
      · exact absurd (by simp [hh]) hguard
    split
    · rename_i hcond
      have hhd : headReleasable s = false := by
        simp [headReleasable, hcond]
      rw [hhd]
      simp only [Bool.false_eq_true, if_false]
      split <;> rfl
    · rename_i hcond
      have hc2 : (s.isEndOfStream && s.audioQueue.length == 0) = false := by
        cases hcc : (s.isEndOfStream && s.audioQueue.length == 0)
        · rfl
        · exact absurd hcc hcond
      split
      · rename_i hq
        have hhd : headReleasable s = false := by
          simp [headReleasable, hq]
        rw [hhd]
        simp only [Bool.false_eq_true, if_false]
        rfl
      · rename_i item hq
        split
        · rename_i buf hb
          have hhd : headReleasable s = true := by
            simp [headReleasable, h1, h2, h3, hc2, hq, itemDecodes, hb]
          rw [hhd, if_pos rfl]
          rw [(releaseHead_stream s item buf now [] h1 h2 rfl).1]
          rw [hkeys _ (qget_mem hq)]
        · rename_i hb
          split
          · rename_i hdec
            have hhd : headReleasable s = false := by
              simp [headReleasable, hq, itemDecodes, hb, hdec]
            rw [hhd]
            simp only [Bool.false_eq_true, if_false]
            rfl
          · rename_i buf hdec
            have hhd : headReleasable s = true := by
              simp [headReleasable, h1, h2, h3, hc2, hq, itemDecodes, hb, hdec]
            rw [hhd, if_pos rfl]
            rw [(releaseHead_stream { s with audioQueue := qset s.audioQueue s.nextChunkToPlayIndex { item with buffer := some buf } } item buf now [Ev.decodeCall item.chunkIndex] h1 h2 rfl).1]
            rw [hkeys _ (qget_mem hq)]

lemma guard_parts {s : SvcState}
    (hguard : ¬((!s.isSessionActive || s.isPlayingChunk || s.isDecoding) = true)) :
    s.isSessionActive = true ∧ s.isPlayingChunk = false ∧ s.isDecoding = false := by
  refine ⟨?_, ?_, ?_⟩
  · cases hh : s.isSessionActive
    · exact absurd (by simp [hh]) hguard
    · rfl
  · cases hh : s.isPlayingChunk
    · rfl
    · exact absurd (by simp [hh]) hguard
  · cases hh : s.isDecoding
    · rfl
    · exact absurd (by simp [hh]) hguard

lemma qget_filter_ne (k i : Nat) (h : k ≠ i) :
    ∀ m : List (Nat × AudioQueueItem),
      qget (m.filter fun p => p.1 != k) i = qget m i := by
  intro m
  induction m with
  | nil => rfl
  | cons p r ih =>
    rw [List.filter_cons]
    by_cases hp : p.1 = k
    · have hbe : (p.1 != k) = false := by simp [hp]
      rw [hbe]
      simp only [Bool.false_eq_true, if_false]
      rw [ih, qget, if_neg (by rw [hp]; exact h)]
    · have hbe : (p.1 != k) = true := by simp [hp]
      rw [hbe]
      simp only [if_true]
      rw [qget, qget]
      by_cases hpi : p.1 = i
      · rw [if_pos hpi, if_pos hpi]
      · rw [if_neg hpi, if_neg hpi]
        exact ih

lemma qget_qset_self (m : List (Nat × AudioQueueItem)) (k : Nat) (v : AudioQueueItem) :
    qget (qset m k v) k = some v := by
  simp [qget, qset]

lemma qget_qset_ne (m : List (Nat × AudioQueueItem)) (k i : Nat) (v : AudioQueueItem)
    (h : k ≠ i) : qget (qset m k v) i = qget m i := by
  rw [qset, qget, if_neg h]
  exact qget_filter_ne k i h m

lemma qget_qdel_ne (m : List (Nat × AudioQueueItem)) (k i : Nat) (h : k ≠ i) :
    qget (qdel m k) i = qget m i :=
  qget_filter_ne k i h m

lemma tryToPlay_qget_ne (s : SvcState) (now : ℚ) (i : Nat)
    (hi : i ≠ s.nextChunkToPlayIndex)
    (hhead : ∀ it, qget s.audioQueue s.nextChunkToPlayIndex = some it → itemDecodes it = true) :
    qget (tryToPlayNextChunk s now).1.audioQueue i = qget s.audioQueue i := by
  simp only [tryToPlayNextChunk]
  split
  · rfl
  · rename_i hguard
    obtain ⟨h1, h2, h3⟩ := guard_parts hguard
    split
    · rename_i hcond
      have hemp : s.audioQueue = [] := by
        have hlen : (s.audioQueue.length == 0) = true := ((Bool.and_eq_true _ _).mp hcond).2
        exact List.length_eq_zero.mp (by simpa using hlen)
      rw [hemp]
      rfl
    · split
      · rfl
      · rename_i item hq
        split
        · rename_i buf hb
          obtain ⟨-, -, hqueue⟩ := releaseHead_stream s item buf now [] h1 h2 rfl
          rw [hqueue]
          exact qget_qdel_ne _ _ _ (Ne.symm hi)
        · rename_i hb
          split
          · rename_i hdec
            have := hhead item hq
            simp [itemDecodes, hb, hdec] at this
          · rename_i buf hdec
            obtain ⟨-, -, hqueue⟩ :=
              releaseHead_stream { s with audioQueue := qset s.audioQueue s.nextChunkToPlayIndex { item with buffer := some buf } } item buf now [Ev.decodeCall item.chunkIndex] h1 h2 rfl
            rw [hqueue]
            rw [qget_qdel_ne _ _ _ (Ne.symm hi), qget_qset_ne _ _ _ _ (Ne.symm hi)]

lemma tryToPlay_qkeys (s : SvcState) (now : ℚ) (hk : qkeysOk s) :
    qkeysOk (tryToPlayNextChunk s now).1 := by
  simp only [tryToPlayNextChunk]
  split
  · exact hk
  · rename_i hguard
    obtain ⟨h1, h2, h3⟩ := guard_parts hguard
    split
    · intro p hp
      simp [resetState, initState] at hp
    · split
      · exact hk
      · rename_i item hq
        split
        · rename_i buf hb
          obtain ⟨-, -, hqueue⟩ := releaseHead_stream s item buf now [] h1 h2 rfl
          intro p hp
          rw [hqueue] at hp
          exact hk _ (List.mem_of_mem_filter hp)
        · rename_i hb
          split
          · intro p hp
            simp [resetState, initState] at hp
          · rename_i buf hdec
            obtain ⟨-, -, hqueue⟩ :=
              releaseHead_stream { s with audioQueue := qset s.audioQueue s.nextChunkToPlayIndex { item with buffer := some buf } } item buf now [Ev.decodeCall item.chunkIndex] h1 h2 rfl
            intro p hp
            rw [hqueue] at hp
            have hp2 := List.mem_of_mem_filter hp
            rcases List.mem_cons.mp hp2 with hp3 | hp3
            · rw [hp3]
              show item.chunkIndex = s.nextChunkToPlayIndex
              exact hk _ (qget_mem hq)
            · exact hk _ (List.mem_of_mem_filter hp3)

lemma step_qkeys (s : SvcState) (a : Act) (t : ℚ) (hk : qkeysOk s) :
    qkeysOk (step s a t).1 := by
  cases a with
  | start o =>
    intro p hp
    simp [step, startStreamingPlayback, resetState, initState] at hp
  | add p txt i =>
    simp only [step, addAudioChunkToQueue]
    split
    · exact hk
    · refine tryToPlay_qkeys _ t ?_
      intro q hq
      rcases List.mem_cons.mp hq with hh | hh
      · rw [hh]
      · exact hk _ (List.mem_of_mem_filter hh)
  | signalEnd =>
    simp only [step, signalEndOfStream]
    split
    · exact hk
    · exact tryToPlay_qkeys _ t hk
  | pause =>
    simp only [step, pauseAudio]
    split
    · exact hk
    · exact hk
  | resume =>
    simp only [step, resumeAudio]
    split
    · split
      · exact hk
      · intro p hp
        rw [(playChunk_proj _ _ _).2.1] at hp
        exact hk _ hp
    · exact hk
  | stop =>
    intro p hp
    simp [step, stopAudio, resetState, initState] at hp
  | ended =>
    simp only [step, onSourceEnded]
    split
    · exact hk
    · split
      · exact hk
      · exact tryToPlay_qkeys _ t hk
  | timer k =>
    simp only [step, fireTimer]
    split
    · exact hk
    · exact hk

lemma step_active_of (s : SvcState) (a : Act) (t : ℚ) (hns : ∀ o, a ≠ Act.start o)
    (hact : (step s a t).1.isSessionActive = true) : s.isSessionActive = true := by
  cases hh : s.isSessionActive
  · obtain ⟨-, hf⟩ := step_inactive s a t hh hns
    rw [hf] at hact
    exact absurd hact (by simp)
  · rfl

lemma step_released_bound (s : SvcState) (a : Act) (t : ℚ) (hk : qkeysOk s)
    (hns : ∀ o, a ≠ Act.start o) :
    ∀ j ∈ releasedOf (step s a t).2, j = s.nextChunkToPlayIndex := by
  cases a with
  | start o => exact absurd rfl (hns o)
  | add p txt i =>
    simp only [step, addAudioChunkToQueue]
    split
    · intro j hj
      exact absurd hj (List.not_mem_nil _)
    · intro j hj
      have hk2 : qkeysOk { s with audioQueue := qset s.audioQueue i ⟨p, txt, i, none⟩ } := by
        intro q hq
        rcases List.mem_cons.mp hq with hh | hh
        · rw [hh]
        · exact hk _ (List.mem_of_mem_filter hh)
      rw [tryToPlay_release_iff _ t hk2] at hj
      split at hj
      · simpa using hj
      · exact absurd hj (List.not_mem_nil _)
  | signalEnd =>
    simp only [step, signalEndOfStream]
    split
    · intro j hj
      exact absurd hj (List.not_mem_nil _)
    · intro j hj
      rw [tryToPlay_release_iff { s with isEndOfStream := true } t hk] at hj
      split at hj
      · simpa using hj
      · exact absurd hj (List.not_mem_nil _)
  | pause =>
    simp only [step, pauseAudio]
    split
    · intro j hj
      exact absurd hj (List.not_mem_nil _)
    · intro j hj
      exact absurd hj (List.not_mem_nil _)
  | resume =>
    simp only [step, resumeAudio]
    split
    · split
      · intro j hj
        exact absurd hj (List.not_mem_nil _)
      · intro j hj
        rw [releasedOf_playChunk] at hj
        exact absurd hj (List.not_mem_nil _)
    · intro j hj
      exact absurd hj (List.not_mem_nil _)
  | stop =>
    intro j hj
    exact absurd hj (List.not_mem_nil _)
  | ended =>
    simp only [step, onSourceEnded]
    split
    · intro j hj
      exact absurd hj (List.not_mem_nil _)
    · split
      · intro j hj
        exact absurd hj (List.not_mem_nil _)
      · intro j hj
        rw [tryToPlay_release_iff { s with onendedArmed := false, isPlayingChunk := false, startOffset := 0, totalSentencesProcessed := s.totalSentencesProcessed + (splitUnits (s.currentTextChunk.getD [])).length } t hk] at hj
        split at hj
        · simpa using hj
        · exact absurd hj (List.not_mem_nil _)
  | timer k =>
    simp only [step, fireTimer]
    split
    · intro j hj
      exact absurd hj (List.not_mem_nil _)
    · intro j hj
      have : releasedOf (if s.hasCallbacks then
          [Ev.sentenceChange (s.totalSentencesProcessed +
            (s.highlightTimeouts.get? k).iget.2)] else []) = [] := by
        split <;> rfl
      rename_i e he
      revert hj
      split <;> intro hj <;> exact absurd hj (List.not_mem_nil _)

lemma runTrace_released_ge : ∀ (tr : List (Act × ℚ)) (s : SvcState) (N : Nat),
    qkeysOk s → (∀ x ∈ tr, ∀ o, (x : Act × ℚ).1 ≠ Act.start o) →
    (s.isSessionActive = true → N ≤ s.nextChunkToPlayIndex) →
    ∀ j ∈ releasedOf (runTrace s tr).2, N ≤ j := by
  intro tr
  induction tr with
  | nil =>
    intro s N _ _ _ j hj
    exact absurd hj (List.not_mem_nil _)
  | cons x r ih =>
    obtain ⟨a, t⟩ := x
    intro s N hk hns hinv j hj
    have hns1 : ∀ o, a ≠ Act.start o := fun o => hns (a, t) (List.mem_cons_self _ _) o
    have hnsr : ∀ x ∈ r, ∀ o, (x : Act × ℚ).1 ≠ Act.start o :=
      fun y hy => hns y (List.mem_cons_of_mem _ hy)
    have hsplit : j ∈ releasedOf (step s a t).2
        ∨ j ∈ releasedOf (runTrace (step s a t).1 r).2 := by
      have happ : releasedOf (runTrace s ((a, t) :: r)).2 =
          releasedOf (step s a t).2 ++ releasedOf (runTrace (step s a t).1 r).2 := by
        show releasedOf ((step s a t).2 ++ _) = _
        rw [releasedOf_append]
      rw [happ] at hj
      exact List.mem_append.mp hj
    rcases hsplit with hj1 | hj1
    · have hact : s.isSessionActive = true := by
        cases hh : s.isSessionActive
        · obtain ⟨he, -⟩ := step_inactive s a t hh hns1
          rw [he] at hj1
          exact absurd hj1 (List.not_mem_nil _)
        · rfl
      rw [step_released_bound s a t hk hns1 j hj1]
      exact hinv hact
    · refine ih (step s a t).1 N (step_qkeys s a t hk) hnsr ?_ j hj1
      intro hact2
      have hact : s.isSessionActive = true := step_active_of s a t hns1 hact2
      rcases step_next_mono_or s a t hns1 with hle | hf
      · exact le_trans (hinv hact) hle
      · rw [hact2] at hf
        exact absurd hf (by simp)

lemma cumBefore_zero (durs : List ℚ) : cumBefore durs 0 = 0 := rfl

lemma cumBefore_succ_cons (d : ℚ) (rest : List ℚ) (k : Nat) :
    cumBefore (d :: rest) (k + 1) = d + cumBefore rest k := by
  simp [cumBefore, List.take_succ_cons]

lemma cumBefore_drop (durs : List ℚ) (m k : Nat) :
    cumBefore (durs.drop m) k = cumBefore durs (m + k) - cumBefore durs m := by
  unfold cumBefore
  rw [List.take_add, List.sum_append]
  ring

lemma findStartAux_spec (offset : ℚ) :
    ∀ (durs : List ℚ) (c : ℚ) (i : Nat),
      (∃ m, m < durs.length ∧ offset < c + cumBefore durs (m + 1)) →
      ∃ m, findStartAux offset durs c i = i + m ∧ m < durs.length ∧
        offset < c + cumBefore durs (m + 1) ∧
        ∀ j, j < m → c + cumBefore durs (j + 1) ≤ offset := by
  intro durs
  induction durs with
  | nil =>
    rintro c i ⟨m, hm, -⟩
    exact absurd hm (by simp)
  | cons d rest ih =>
    rintro c i ⟨m, hm, hlt⟩
    by_cases hfirst : c + d > offset
    · refine ⟨0, ?_, by simp, ?_, fun j hj => absurd hj (Nat.not_lt_zero j)⟩
      · simp only [findStartAux]
        rw [if_pos hfirst]
        rfl
      · rw [cumBefore_succ_cons, cumBefore_zero]
        linarith
    · have hle : c + d ≤ offset := not_lt.mp hfirst
      obtain ⟨m2, hm2, hlt2⟩ :
          ∃ m2, m2 < rest.length ∧ offset < (c + d) + cumBefore rest (m2 + 1) := by
        cases m with
        | zero =>
          exfalso
          apply hfirst
          rw [cumBefore_succ_cons, cumBefore_zero] at hlt
          linarith
        | succ m0 =>
          refine ⟨m0, by simpa using hm, ?_⟩
          rw [cumBefore_succ_cons] at hlt
          linarith
      obtain ⟨m3, heq, hlen3, hlt3, hbound3⟩ := ih (c + d) (i + 1) ⟨m2, hm2, hlt2⟩
      refine ⟨m3 + 1, ?_, by simpa using Nat.succ_lt_succ hlen3, ?_, ?_⟩
      · simp only [findStartAux]
        rw [if_neg hfirst, heq]
        omega
      · rw [cumBefore_succ_cons]
        linarith
      · intro j hj
        cases j with
        | zero =>
          rw [cumBefore_succ_cons, cumBefore_zero]
          linarith
        | succ j0 =>
          rw [cumBefore_succ_cons]
          have := hbound3 j0 (by omega)
          linarith

lemma mkTimersAux_spec (cps now : ℚ) :
    ∀ (us : List (List Char)) (c : ℚ) (i : Nat),
      mkTimersAux cps now us c i =
        (List.range (us.length - 1)).filterMap (fun r =>
          if 0 < c + cumBefore (us.map fun u => (u.length : ℚ) / cps) (r + 1)
          then some (now + (c + cumBefore (us.map fun u => (u.length : ℚ) / cps) (r + 1)),
            i + r + 1)
          else none) := by
  intro us
  induction us with
  | nil => intro c i; rfl
  | cons u rest ih =>
    intro c i
    cases rest with
    | nil => rfl
    | cons v rest2 =>
      simp only [mkTimersAux]
      rw [ih (c + (u.length : ℚ) / cps) (i + 1)]
      have hlen : (u :: v :: rest2).length - 1 = ((v :: rest2).length - 1) + 1 := by simp
      rw [hlen, List.range_succ_eq_map, List.filterMap_cons, List.filterMap_map]
      have hhead : cumBefore ((u :: v :: rest2).map fun x => (x.length : ℚ) / cps) 1 =
          (u.length : ℚ) / cps := by
        rw [List.map_cons, cumBefore_succ_cons, cumBefore_zero, add_zero]
      have htail : ((fun r =>
            if 0 < c + cumBefore ((u :: v :: rest2).map fun x => (x.length : ℚ) / cps) (r + 1)
            then some (now +
              (c + cumBefore ((u :: v :: rest2).map fun x => (x.length : ℚ) / cps) (r + 1)),
              i + r + 1)
            else none) ∘ Nat.succ) =
          (fun r =>
            if 0 < (c + (u.length : ℚ) / cps) +
                cumBefore ((v :: rest2).map fun x => (x.length : ℚ) / cps) (r + 1)
            then some (now + ((c + (u.length : ℚ) / cps) +
                cumBefore ((v :: rest2).map fun x => (x.length : ℚ) / cps) (r + 1)),
              (i + 1) + r + 1)
            else none) := by
        funext r
        simp only [Function.comp_apply]
        rw [List.map_cons, cumBefore_succ_cons]
        have harith : c + ((u.length : ℚ) / cps +
            cumBefore ((v :: rest2).map fun x => (x.length : ℚ) / cps) (Nat.succ r)) =
            (c + (u.length : ℚ) / cps) +
              cumBefore ((v :: rest2).map fun x => (x.length : ℚ) / cps) (Nat.succ r) := by
          ring
        rw [harith]
        have hidx : i + Nat.succ r + 1 = (i + 1) + r + 1 := by omega
        rw [hidx]
      rw [htail]
      simp only [Nat.zero_add, Nat.add_zero]
      rw [hhead]
      by_cases hpos : 0 < c + (u.length : ℚ) / cps
      · rw [if_pos hpos, if_pos hpos]
        rfl
      · rw [if_neg hpos, if_neg hpos]
        rfl

lemma schedule_main (s : SvcState) (txt : List Char) (buf : AudioBuffer) (now : ℚ)
    (hcb : s.hasCallbacks = true) (hchars : 0 < ((txt.length : ℚ)))
    (hdur : 0 < buf.duration) :
    scheduleHighlightingForChunk s txt buf now =
      ({ s with highlightTimeouts := mkTimersAux ((txt.length : ℚ) / buf.duration) now ((sentencesOf txt).drop (startIdx s txt buf)) (-s.startOffset) (startIdx s txt buf) },
       [Ev.sentenceChange (s.totalSentencesProcessed + startIdx s txt buf)]) := by
  simp only [scheduleHighlightingForChunk, hcb, Bool.not_true, Bool.false_eq_true,
    if_false]
  rw [if_neg (by push_neg; exact ⟨hchars, hdur⟩)]
  rfl

lemma mkTimers_closed (text : List Char) (buf : AudioBuffer) (offset now : ℚ) (m : Nat) :
    mkTimersAux ((text.length : ℚ) / buf.duration) now ((sentencesOf text).drop m)
      (-offset) m = codeTimers (unitDurs text buf) offset now m := by
  rw [mkTimersAux_spec]
  have hdrop : ((sentencesOf text).drop m).map
      (fun u => (u.length : ℚ) / ((text.length : ℚ) / buf.duration)) =
      (unitDurs text buf).drop m := by
    simp [unitDurs, List.map_drop]
  rw [hdrop]
  simp only [codeTimers, codeDelay, cumBefore_drop, List.length_drop, ← Nat.add_assoc]
  rw [show (sentencesOf text).length = (unitDurs text buf).length from by simp [unitDurs]]
  apply List.filterMap_congr
  intro r hr
  rw [show -offset + (cumBefore (unitDurs text buf) (m + r + 1) - cumBefore (unitDurs text buf) m) = cumBefore (unitDurs text buf) (m + r + 1) - cumBefore (unitDurs text buf) m - offset from by ring]

/-! ## Claims -/

/-- C1: chunks are handed to playback in strictly increasing index order.
`_tryToPlayNextChunk` releases a chunk to `_playChunk` exactly when, at its
check, the session is live (active, nothing playing or decoding, not
terminating) and the chunk whose index equals `nextChunkToPlayIndex` is in
the queue (and decodes) — and the released chunk is precisely that one;
under every non-session-starting stimulus `nextChunkToPlayIndex` never
decreases while the session stays active; and over any streaming run of a
fresh session — admissions arriving in arbitrary order with decodable
payloads, interleaved with the end-of-stream signal, chunk completions and
highlight timers — the indices handed to `_playChunk` form the initial
segment `0, 1, ..., k-1`, a strictly increasing sequence. -/
theorem C1_strict_release_order :
    (∀ (s : SvcState) (now : ℚ), qkeysOk s →
      releasedOf (tryToPlayNextChunk s now).2 =
        if headReleasable s then [s.nextChunkToPlayIndex] else [])
    ∧ (∀ (s : SvcState) (a : Act) (t : ℚ), (∀ o, a ≠ Act.start o) →
        (step s a t).1.isSessionActive = true →
        s.nextChunkToPlayIndex ≤ (step s a t).1.nextChunkToPlayIndex)
    ∧ (∀ (o t0 : ℚ) (tr : List (Act × ℚ)),
        (∀ x ∈ tr, streamAct (x : Act × ℚ).1) → wfAdds tr →
        ∃ k, releasedOf (runTrace (startStreamingPlayback initState o t0).1 tr).2 =
            List.range k
          ∧ List.Sorted (· < ·)
            (releasedOf (runTrace (startStreamingPlayback initState o t0).1 tr).2)) := by
  refine ⟨fun s now hkeys => tryToPlay_release_iff s now hkeys, ?_, ?_⟩
  · intro s a t hns hact
    refine (step_next_mono_or s a t hns).resolve_right ?_
    intro hf
    rw [hact] at hf
    exact absurd hf (by simp)
  · intro o t0 tr hst hwfa
    obtain ⟨k, hk⟩ := runTrace_released tr (startStreamingPlayback initState o t0).1 hst hwfa
      (by intro p hp; simp [startStreamingPlayback, resetState, initState] at hp)
      (by intro p hp; simp [startStreamingPlayback, resetState, initState] at hp)
    refine ⟨k, ?_, ?_⟩
    · rw [hk]
      exact (List.range_eq_range' k).symm
    · rw [hk]
      have hr : List.range' ((startStreamingPlayback initState o t0).1.nextChunkToPlayIndex) k =
          List.range k := (List.range_eq_range' k).symm
      rw [hr]
      exact List.sorted_lt_range k

theorem C1_strict_release_order_witness :
    (qkeysOk badHeadState
      ∧ releasedOf (tryToPlayNextChunk badHeadState 0).2 =
          (if headReleasable badHeadState then [badHeadState.nextChunkToPlayIndex] else []))
    ∧ ((step { initState with isSessionActive := true } (Act.timer 0) 0).1.isSessionActive = true
      ∧ ({ initState with isSessionActive := true } : SvcState).nextChunkToPlayIndex ≤
          (step { initState with isSessionActive := true } (Act.timer 0) 0).1.nextChunkToPlayIndex)
    ∧ (∃ k, releasedOf (runTrace (startStreamingPlayback initState 0 0).1
          [(Act.add (some [0, 0]) ['A', '.'] 0, 0)]).2 = List.range k
        ∧ List.Sorted (· < ·) (releasedOf (runTrace (startStreamingPlayback initState 0 0).1
            [(Act.add (some [0, 0]) ['A', '.'] 0, 0)]).2)) := by
  have hkeys : qkeysOk badHeadState := by
    intro p hp
    simp only [badHeadState, initState] at hp
    rcases List.mem_cons.mp hp with h | h
    · rw [h]
      rfl
    · exact absurd h (List.not_mem_nil _)
  have hact : (step { initState with isSessionActive := true } (Act.timer 0) 0).1.isSessionActive =
      true := rfl
  refine ⟨⟨hkeys, C1_strict_release_order.1 badHeadState 0 hkeys⟩,
    ⟨hact, C1_strict_release_order.2.1 _ (Act.timer 0) 0 (fun o he => by cases he) hact⟩,
    C1_strict_release_order.2.2 0 0 [(Act.add (some [0, 0]) ['A', '.'] 0, 0)] ?_ ?_⟩
  · intro x hx
    rcases List.mem_cons.mp hx with h | h
    · rw [h]
      exact trivial
    · exact absurd h (List.not_mem_nil _)
  · intro p txt i t hmem
    rcases List.mem_cons.mp hmem with h | h
    · injection h with h1 h2
      injection h1 with hp htxt hi
      rw [hp]
      decide
    · exact absurd h (List.not_mem_nil _)

/-- C4: every chunk handed to `_playChunk` is started on the hardware clock
at `max(nextPlaybackTime, currentHardwareTime)` with in-buffer offset
`effectiveStartOffset = max(0, startOffset % duration)`, and afterwards the
scheduling cursor equals that start time plus
`(buffer duration - effectiveStartOffset)` — in particular, when the cursor
was not behind the clock it has advanced by exactly the chunk's duration
minus the consumed offset, so consecutive chunks are scheduled back to back
with no gap. -/
theorem C4_back_to_back_scheduling (s : SvcState) (it : ReadyItem) (now : ℚ) :
    (playChunk s it now).2.head? =
      some (Ev.playStarted it.chunkIndex it.buffer (max s.nextPlaybackTime now)
        (max 0 (jsMod s.startOffset it.buffer.duration)))
    ∧ (playChunk s it now).1.nextPlaybackTime =
        max s.nextPlaybackTime now +
          (it.buffer.duration - max 0 (jsMod s.startOffset it.buffer.duration))
    ∧ (now ≤ s.nextPlaybackTime →
        (playChunk s it now).1.nextPlaybackTime - s.nextPlaybackTime =
          it.buffer.duration - max 0 (jsMod s.startOffset it.buffer.duration)) := by
  obtain ⟨ht, evs, hEq, -⟩ := playChunk_shape s it now
  rw [hEq]
  refine ⟨rfl, rfl, fun h => ?_⟩
  simp only [max_eq_left h]
  ring

theorem C4_back_to_back_scheduling_witness :
    ((0 : ℚ) ≤ initState.nextPlaybackTime)
    ∧ ((playChunk initState ⟨['h', 'i', '.'], 0, ⟨48⟩⟩ 0).2.head? =
        some (Ev.playStarted 0 ⟨48⟩ (max initState.nextPlaybackTime 0)
          (max 0 (jsMod initState.startOffset (AudioBuffer.duration ⟨48⟩))))
      ∧ (playChunk initState ⟨['h', 'i', '.'], 0, ⟨48⟩⟩ 0).1.nextPlaybackTime =
          max initState.nextPlaybackTime 0 +
            (AudioBuffer.duration ⟨48⟩ -
              max 0 (jsMod initState.startOffset (AudioBuffer.duration ⟨48⟩)))
      ∧ ((0 : ℚ) ≤ initState.nextPlaybackTime →
          (playChunk initState ⟨['h', 'i', '.'], 0, ⟨48⟩⟩ 0).1.nextPlaybackTime -
              initState.nextPlaybackTime =
            AudioBuffer.duration ⟨48⟩ -
              max 0 (jsMod initState.startOffset (AudioBuffer.duration ⟨48⟩)))) :=
  ⟨le_refl 0, C4_back_to_back_scheduling initState ⟨['h', 'i', '.'], 0, ⟨48⟩⟩ 0⟩

/-- C9: for a chunk whose text has non-positive total character length or
whose decoded buffer has non-positive duration, highlight scheduling is a
silent no-op — no timers are scheduled and no sentence-change callback fires
for it — and `_playChunk` still schedules the chunk and leaves the session
state uninterrupted. -/
theorem C9_degenerate_chunk_silent (s : SvcState) (txt : List Char) (buf : AudioBuffer)
    (now : ℚ) (h : ((txt.length : ℚ)) ≤ 0 ∨ buf.duration ≤ 0) :
    scheduleHighlightingForChunk s txt buf now = ({ s with highlightTimeouts := [] }, [])
    ∧ ∀ it : ReadyItem, it.text = txt → it.buffer = buf →
        (playChunk s it now).1.highlightTimeouts = []
        ∧ sentenceIdxOf (playChunk s it now).2 = []
        ∧ (playChunk s it now).1.isSessionActive = s.isSessionActive
        ∧ (playChunk s it now).1.isPlayingChunk = s.isPlayingChunk
        ∧ (playChunk s it now).2.head? =
            some (Ev.playStarted it.chunkIndex it.buffer (max s.nextPlaybackTime now)
              (max 0 (jsMod s.startOffset it.buffer.duration))) := by
  refine ⟨schedule_degenerate s txt buf now h, fun it h1 h2 => ?_⟩
  simp only [playChunk, ite_lt_eq_max]
  rw [h1, h2, schedule_degenerate _ txt buf now h]
  by_cases hf : s.isFirstChunkOfSession = true <;>
    simp [hf, sentenceIdxOf, h1, h2]

theorem C9_degenerate_chunk_silent_witness :
    ((((List.nil : List Char).length : ℚ)) ≤ 0 ∨ AudioBuffer.duration ⟨48⟩ ≤ 0)
    ∧ (scheduleHighlightingForChunk initState [] ⟨48⟩ 0 =
        ({ initState with highlightTimeouts := [] }, [])
      ∧ ∀ it : ReadyItem, it.text = [] → it.buffer = ⟨48⟩ →
          (playChunk initState it 0).1.highlightTimeouts = []
          ∧ sentenceIdxOf (playChunk initState it 0).2 = []
          ∧ (playChunk initState it 0).1.isSessionActive = initState.isSessionActive
          ∧ (playChunk initState it 0).1.isPlayingChunk = initState.isPlayingChunk
          ∧ (playChunk initState it 0).2.head? =
              some (Ev.playStarted it.chunkIndex it.buffer
                (max initState.nextPlaybackTime 0)
                (max 0 (jsMod initState.startOffset it.buffer.duration)))) :=
  ⟨Or.inl (by norm_num), C9_degenerate_chunk_silent initState [] ⟨48⟩ 0 (Or.inl (by norm_num))⟩

/-- C10: when `_playChunk` plays a chunk with a start offset at least as
large as the buffer duration, the in-buffer start position it passes to
`source.start` is the offset reduced modulo the duration — wrapping around
to within `[0, duration)` — and not the offset clamped to the buffer's
end. -/
theorem C10_large_offset_wraps (s : SvcState) (it : ReadyItem) (now : ℚ)
    (hd : 0 < it.buffer.duration) (hoff : it.buffer.duration ≤ s.startOffset) :
    (playChunk s it now).2.head? =
      some (Ev.playStarted it.chunkIndex it.buffer (max s.nextPlaybackTime now)
        (jsMod s.startOffset it.buffer.duration))
    ∧ jsMod s.startOffset it.buffer.duration =
        s.startOffset - it.buffer.duration * ⌊s.startOffset / it.buffer.duration⌋
    ∧ 0 ≤ jsMod s.startOffset it.buffer.duration
    ∧ jsMod s.startOffset it.buffer.duration < it.buffer.duration := by
  have ha : 0 ≤ s.startOffset := le_trans hd.le hoff
  have h0 : 0 ≤ jsMod s.startOffset it.buffer.duration := jsMod_nonneg ha hd
  obtain ⟨ht, evs, hEq, -⟩ := playChunk_shape s it now
  rw [hEq]
  rw [List.head?_cons, max_eq_right h0]
  exact ⟨rfl, jsMod_eq_floor_mod ha hd, h0, jsMod_lt ha hd⟩

theorem C10_large_offset_wraps_witness :
    ((0 : ℚ) < AudioBuffer.duration ⟨48⟩
      ∧ AudioBuffer.duration ⟨48⟩ ≤ ({ initState with startOffset := 1/200 } : SvcState).startOffset)
    ∧ ((playChunk { initState with startOffset := 1/200 } ⟨['h', 'i', '.'], 0, ⟨48⟩⟩ 0).2.head? =
        some (Ev.playStarted 0 ⟨48⟩
          (max ({ initState with startOffset := 1/200 } : SvcState).nextPlaybackTime 0)
          (jsMod (1/200) (AudioBuffer.duration ⟨48⟩)))
      ∧ jsMod (1/200) (AudioBuffer.duration ⟨48⟩) =
          1/200 - AudioBuffer.duration ⟨48⟩ * ⌊(1/200 : ℚ) / AudioBuffer.duration ⟨48⟩⌋
      ∧ 0 ≤ jsMod (1/200) (AudioBuffer.duration ⟨48⟩)
      ∧ jsMod (1/200) (AudioBuffer.duration ⟨48⟩) < AudioBuffer.duration ⟨48⟩) := by
  have hd : (0 : ℚ) < AudioBuffer.duration ⟨48⟩ := by
    simp only [AudioBuffer.duration]
    norm_num
  have hoff : AudioBuffer.duration ⟨48⟩ ≤
      ({ initState with startOffset := 1/200 } : SvcState).startOffset := by
    simp only [AudioBuffer.duration]
    norm_num [initState]
  exact ⟨⟨hd, hoff⟩,
    C10_large_offset_wraps { initState with startOffset := 1/200 } ⟨['h', 'i', '.'], 0, ⟨48⟩⟩ 0 hd hoff⟩

/-- C3: pausing during playback of a chunk and then resuming continues from
an offset exactly equal to the elapsed time captured at the pause, replays
the same already-decoded buffer without invoking the decode pipeline, and
does not restart from the beginning of the chunk. -/
theorem C3_pause_resume_exact (s : SvcState) (t₁ t₂ : ℚ) (buf : AudioBuffer) (txt : List Char)
    (hsrc : s.hasCurrentSource = true) (hp : s.isPaused = false)
    (hbuf : s.currentBuffer = some buf) (htxt : s.currentTextChunk = some txt)
    (hidx : 0 ≤ s.currentAbsoluteChunkIndex)
    (hel0 : 0 < t₁ - s.playbackStartTime)
    (hel1 : t₁ - s.playbackStartTime < buf.duration) :
    (pauseAudio s t₁).2 = []
    ∧ (pauseAudio s t₁).1.startOffset = t₁ - s.playbackStartTime
    ∧ (resumeAudio (pauseAudio s t₁).1 t₂).2.head? =
        some (Ev.playStarted s.currentAbsoluteChunkIndex.toNat buf t₂
          (t₁ - s.playbackStartTime))
    ∧ hasDecodeCall ((pauseAudio s t₁).2 ++ (resumeAudio (pauseAudio s t₁).1 t₂).2) = false
    ∧ (resumeAudio (pauseAudio s t₁).1 t₂).1.currentBuffer = some buf
    ∧ t₁ - s.playbackStartTime ≠ 0 := by
  have hguard : (!s.hasCurrentSource || s.isPaused || s.currentBuffer.isNone) = false := by
    simp [hsrc, hp, hbuf]
  have hpause : pauseAudio s t₁ =
      ({ s with startOffset := t₁ - s.playbackStartTime, isPaused := true,
                highlightTimeouts := [], onendedArmed := false }, []) := by
    simp only [pauseAudio, hguard]
    simp
  have hne : (s.currentAbsoluteChunkIndex == (-1 : ℤ)) = false := by
    have : s.currentAbsoluteChunkIndex ≠ (-1 : ℤ) := by omega
    simpa using this
  obtain ⟨ht, evs, hplay, hE⟩ := playChunk_shape
    { s with startOffset := t₁ - s.playbackStartTime, isPaused := false,
             highlightTimeouts := [], onendedArmed := false, nextPlaybackTime := t₂ }
    ⟨txt, s.currentAbsoluteChunkIndex.toNat, buf⟩ t₂
  have hresume : resumeAudio (pauseAudio s t₁).1 t₂ =
      playChunk
        { s with startOffset := t₁ - s.playbackStartTime, isPaused := false,
                 highlightTimeouts := [], onendedArmed := false, nextPlaybackTime := t₂ }
        ⟨txt, s.currentAbsoluteChunkIndex.toNat, buf⟩ t₂ := by
    rw [hpause]
    simp only [resumeAudio, hbuf, htxt, hne]
    simp
  rw [hresume, hpause, hplay]
  have hoffEq : max 0 (jsMod (t₁ - s.playbackStartTime) buf.duration) =
      t₁ - s.playbackStartTime := by
    rw [jsMod_self_of_lt hel0.le hel1]
    exact max_eq_right hel0.le
  refine ⟨rfl, rfl, ?_, ?_, rfl, ne_of_gt hel0⟩
  · rw [List.head?_cons, max_self, hoffEq]
  · rcases hE with h | ⟨i, h⟩ <;> simp [hasDecodeCall, h]

theorem C3_pause_resume_exact_witness :
    (({ initState with
          hasCurrentSource := true, isPaused := false,
          currentBuffer := some ⟨48⟩, currentTextChunk := some ['h', 'i', '.'],
          currentAbsoluteChunkIndex := 0, playbackStartTime := 0 } : SvcState).hasCurrentSource = true
      ∧ (0 : ℚ) < 1/1000 - 0 ∧ 1/1000 - (0 : ℚ) < AudioBuffer.duration ⟨48⟩)
    ∧ ((pauseAudio { initState with
          hasCurrentSource := true, isPaused := false,
          currentBuffer := some ⟨48⟩, currentTextChunk := some ['h', 'i', '.'],
          currentAbsoluteChunkIndex := 0, playbackStartTime := 0 } (1/1000)).1.startOffset =
        1/1000 - 0
      ∧ hasDecodeCall ((pauseAudio { initState with
          hasCurrentSource := true, isPaused := false,
          currentBuffer := some ⟨48⟩, currentTextChunk := some ['h', 'i', '.'],
          currentAbsoluteChunkIndex := 0, playbackStartTime := 0 } (1/1000)).2 ++
          (resumeAudio (pauseAudio { initState with
            hasCurrentSource := true, isPaused := false,
            currentBuffer := some ⟨48⟩, currentTextChunk := some ['h', 'i', '.'],
            currentAbsoluteChunkIndex := 0, playbackStartTime := 0 } (1/1000)).1 (2/1000)).2) = false
      ∧ (1/1000 : ℚ) - 0 ≠ 0) := by
  have hd : (1/1000 : ℚ) - 0 < AudioBuffer.duration ⟨48⟩ := by
    simp only [AudioBuffer.duration]
    norm_num
  have h := C3_pause_resume_exact
    { initState with
        hasCurrentSource := true, isPaused := false,
        currentBuffer := some ⟨48⟩, currentTextChunk := some ['h', 'i', '.'],
        currentAbsoluteChunkIndex := 0, playbackStartTime := 0 }
    (1/1000) (2/1000) ⟨48⟩ ['h', 'i', '.'] rfl rfl rfl rfl (le_refl 0) (by norm_num) hd
  exact ⟨⟨rfl, by norm_num, hd⟩, h.2.1, h.2.2.2.1, h.2.2.2.2.2⟩

/-- C2: the session-ended callback fires exactly when, at a sequencer check,
the session is active, nothing is playing or decoding, end-of-stream has
been signalled and the pending queue is empty; `signalEndOfStream` with an
empty queue and nothing playing ends and fully tears down the session
immediately, while `signalEndOfStream` with chunks still queued (or one
playing) fires no session-ended callback and leaves the session active. -/
theorem C2_session_end_condition :
    (∀ (s : SvcState) (now : ℚ),
      Ev.sessionEnded ∈ (tryToPlayNextChunk s now).2 ↔
        (s.isSessionActive = true ∧ s.isPlayingChunk = false ∧ s.isDecoding = false ∧
         s.isEndOfStream = true ∧ s.audioQueue.length = 0 ∧ s.hasCallbacks = true))
    ∧ (∀ (s : SvcState) (now : ℚ), s.isSessionActive = true → s.isPlayingChunk = false →
        s.isDecoding = false → s.audioQueue.length = 0 → s.hasCallbacks = true →
        signalEndOfStream s now =
          ({ initState with nextPlaybackTime := s.nextPlaybackTime }, [Ev.sessionEnded]))
    ∧ (∀ (s : SvcState) (now : ℚ), queueWf s → s.isSessionActive = true →
        (s.audioQueue.length ≠ 0 ∨ s.isPlayingChunk = true) →
        Ev.sessionEnded ∉ (signalEndOfStream s now).2
        ∧ (signalEndOfStream s now).1.isSessionActive = true) := by
  refine ⟨fun s now => tryToPlay_sessionEnded_iff s now, ?_, ?_⟩
  · intro s now h1 h2 h3 h4 h5
    simp [signalEndOfStream, tryToPlayNextChunk, resetState, h1, h2, h3, h4, h5]
  · intro s now hwf h1 hpend
    have hsig : signalEndOfStream s now =
        tryToPlayNextChunk { s with isEndOfStream := true } now := by
      simp [signalEndOfStream, h1]
    constructor
    · rw [hsig]
      intro h
      rcases (tryToPlay_sessionEnded_iff _ _).mp h with ⟨-, hpl, -, -, hlen, -⟩
      rcases hpend with hp | hp
      · exact hp hlen
      · rw [hp] at hpl
        exact absurd hpl (by simp)
    · rw [hsig]
      refine tryToPlay_active _ now hwf h1 ?_
      rcases hpend with hp | hp
      · exact Or.inr (fun hand => hp hand.2)
      · exact Or.inl hp

theorem C2_session_end_condition_witness :
    ((Ev.sessionEnded ∈ (tryToPlayNextChunk initState 0).2 ↔
        (initState.isSessionActive = true ∧ initState.isPlayingChunk = false ∧
         initState.isDecoding = false ∧ initState.isEndOfStream = true ∧
         initState.audioQueue.length = 0 ∧ initState.hasCallbacks = true)))
    ∧ (signalEndOfStream { initState with isSessionActive := true, hasCallbacks := true } 0 =
        ({ initState with nextPlaybackTime := 0 }, [Ev.sessionEnded]))
    ∧ (Ev.sessionEnded ∉
        (signalEndOfStream { initState with isSessionActive := true, isPlayingChunk := true } 0).2
      ∧ (signalEndOfStream
          { initState with isSessionActive := true, isPlayingChunk := true } 0).1.isSessionActive =
          true) := by
  refine ⟨C2_session_end_condition.1 initState 0, ?_, ?_⟩
  · exact C2_session_end_condition.2.1
      { initState with isSessionActive := true, hasCallbacks := true } 0 rfl rfl rfl rfl rfl
  · exact C2_session_end_condition.2.2
      { initState with isSessionActive := true, isPlayingChunk := true } 0
      (by intro p hp; simp [initState] at hp) rfl (Or.inr rfl)

/-- C5 (amended): when decoding the head chunk (the queued chunk at
`nextChunkToPlayIndex`) fails, the whole session is aborted by a full
teardown — the queue is cleared, the session is deactivated, no highlight
timer or source node remains, and no chunk is handed to playback — but the
error is only logged to the console: none of the session controller's
callbacks (first-chunk-ready, session-ended, sentence-change) is invoked, so
the error is not surfaced to the session controller. -/
theorem C5_head_decode_failure_teardown (s : SvcState) (now : ℚ) (item : AudioQueueItem)
    (h1 : s.isSessionActive = true) (h2 : s.isPlayingChunk = false) (h3 : s.isDecoding = false)
    (hq : qget s.audioQueue s.nextChunkToPlayIndex = some item)
    (hb : item.buffer = none) (hfail : decodePayload item.base64 = none) :
    tryToPlayNextChunk s now =
      ({ initState with nextPlaybackTime := s.nextPlaybackTime }, [Ev.decodeCall item.chunkIndex])
    ∧ (tryToPlayNextChunk s now).1.isSessionActive = false
    ∧ (tryToPlayNextChunk s now).1.audioQueue = []
    ∧ (tryToPlayNextChunk s now).1.highlightTimeouts = []
    ∧ (tryToPlayNextChunk s now).1.hasCurrentSource = false
    ∧ releasedOf (tryToPlayNextChunk s now).2 = []
    ∧ (tryToPlayNextChunk s now).2.filter isControllerEv = [] := by
  have hlen : (s.audioQueue.length == 0) = false := by
    have hmem := qget_mem hq
    cases hm : s.audioQueue
    · rw [hm] at hmem
      simp at hmem
    · simp [hm]
  have heq : tryToPlayNextChunk s now =
      ({ initState with nextPlaybackTime := s.nextPlaybackTime },
       [Ev.decodeCall item.chunkIndex]) := by
    simp [tryToPlayNextChunk, resetState, h1, h2, h3, hlen, hq, hb, hfail]
  refine ⟨heq, ?_, ?_, ?_, ?_, ?_, ?_⟩ <;> rw [heq] <;> rfl

theorem C5_head_decode_failure_teardown_witness :
    (badHeadState.isSessionActive = true
      ∧ qget badHeadState.audioQueue badHeadState.nextChunkToPlayIndex = some badItem
      ∧ badItem.buffer = none
      ∧ decodePayload badItem.base64 = none)
    ∧ (tryToPlayNextChunk badHeadState 0 =
        ({ initState with nextPlaybackTime := badHeadState.nextPlaybackTime },
         [Ev.decodeCall badItem.chunkIndex])
      ∧ (tryToPlayNextChunk badHeadState 0).1.isSessionActive = false
      ∧ (tryToPlayNextChunk badHeadState 0).2.filter isControllerEv = []) := by
  have h := C5_head_decode_failure_teardown badHeadState 0 badItem rfl rfl rfl
    (by decide) rfl (by decide)
  exact ⟨⟨rfl, by decide, rfl, by decide⟩, h.1, h.2.1, h.2.2.2.2.2.2⟩

/-- C6 (amended): admitting the same chunk index twice.  If the index has
not yet been played (here: another chunk is currently playing, so nothing is
released), the second admission overwrites the first entry.  If the index
has already been played (`i < nextChunkToPlayIndex`), the second admission
is *not* a no-op: it re-inserts the entry into the pending queue — a
session-state change that, among other things, keeps the queue non-empty
and thus blocks the end-of-stream termination condition — although the
re-admitted chunk is never again released to playback (every release carries
an index at least `nextChunkToPlayIndex > i`). -/
theorem C6_duplicate_admission (s : SvcState) :
    (∀ (p₁ p₂ : Option (List Nat)) (txt₁ txt₂ : List Char) (i : Nat) (t₁ t₂ : ℚ),
      s.isSessionActive = true → s.isPlayingChunk = true →
      qget ((step (step s (Act.add p₁ txt₁ i) t₁).1 (Act.add p₂ txt₂ i) t₂).1).audioQueue i =
        some ⟨p₂, txt₂, i, none⟩)
    ∧ (∀ (p : Option (List Nat)) (txt : List Char) (i : Nat) (t : ℚ),
        s.isSessionActive = true → qkeysOk s → queueWf s → i < s.nextChunkToPlayIndex →
        qget (step s (Act.add p txt i) t).1.audioQueue i = some ⟨p, txt, i, none⟩
        ∧ (∀ j ∈ releasedOf (step s (Act.add p txt i) t).2, j ≠ i)
        ∧ (∀ (tr : List (Act × ℚ)), (∀ x ∈ tr, ∀ o, (x : Act × ℚ).1 ≠ Act.start o) →
            ∀ j ∈ releasedOf (runTrace (step s (Act.add p txt i) t).1 tr).2, j ≠ i)) := by
  constructor
  · intro p₁ p₂ txt₁ txt₂ i t₁ t₂ hact hplay
    have hstep1 : step s (Act.add p₁ txt₁ i) t₁ =
        ({ s with audioQueue := qset s.audioQueue i ⟨p₁, txt₁, i, none⟩ }, []) := by
      simp [step, addAudioChunkToQueue, tryToPlayNextChunk, hact, hplay]
    have hstep2 : step { s with audioQueue := qset s.audioQueue i ⟨p₁, txt₁, i, none⟩ }
          (Act.add p₂ txt₂ i) t₂ =
        ({ s with audioQueue := qset (qset s.audioQueue i ⟨p₁, txt₁, i, none⟩) i ⟨p₂, txt₂, i, none⟩ }, []) := by
      simp [step, addAudioChunkToQueue, tryToPlayNextChunk, hact, hplay]
    rw [hstep1, hstep2]
    exact qget_qset_self _ _ _
  · intro p txt i t hact hkeys hwf hi
    have hne : i ≠ s.nextChunkToPlayIndex := Nat.ne_of_lt hi
    have hstep : step s (Act.add p txt i) t =
        tryToPlayNextChunk { s with audioQueue := qset s.audioQueue i ⟨p, txt, i, none⟩ } t := by
      simp [step, addAudioChunkToQueue, hact]
    refine ⟨?_, ?_, ?_⟩
    · have hhead : ∀ it, qget (qset s.audioQueue i ⟨p, txt, i, none⟩) s.nextChunkToPlayIndex =
          some it → itemDecodes it = true := by
        intro it hit
        rw [qget_qset_ne _ _ _ _ hne] at hit
        exact hwf _ (qget_mem hit)
      rw [hstep, tryToPlay_qget_ne { s with audioQueue := qset s.audioQueue i ⟨p, txt, i, none⟩ } t i hne hhead]
      exact qget_qset_self _ _ _
    · intro j hj
      rw [step_released_bound s _ t hkeys (fun o he => by cases he) j hj]
      exact Ne.symm hne
    · intro tr hns j hj
      have hinv : (step s (Act.add p txt i) t).1.isSessionActive = true →
          s.nextChunkToPlayIndex ≤ (step s (Act.add p txt i) t).1.nextChunkToPlayIndex := by
        intro hact2
        rcases step_next_mono_or s (Act.add p txt i) t (fun o he => by cases he) with hle | hf
        · exact hle
        · rw [hact2] at hf
          exact absurd hf (by simp)
      have hge := runTrace_released_ge tr (step s (Act.add p txt i) t).1 s.nextChunkToPlayIndex
        (step_qkeys s _ t hkeys) hns hinv j hj
      omega

theorem C6_duplicate_admission_witness :
    (({ initState with isSessionActive := true, isPlayingChunk := true } : SvcState).isSessionActive
        = true
      ∧ qget ((step (step { initState with isSessionActive := true, isPlayingChunk := true }
          (Act.add (some [1]) ['a'] 7 : Act) 0).1 (Act.add (some [2]) ['b'] 7 : Act) 0).1).audioQueue 7 =
          some ⟨some [2], ['b'], 7, none⟩)
    ∧ ((0 : Nat) < ({ initState with isSessionActive := true, nextChunkToPlayIndex := 1 } : SvcState).nextChunkToPlayIndex
      ∧ qget (step { initState with isSessionActive := true, nextChunkToPlayIndex := 1 }
          (Act.add tinyPayload ['A', '.'] 0 : Act) 0).1.audioQueue 0 =
          some ⟨tinyPayload, ['A', '.'], 0, none⟩
      ∧ ∀ j ∈ releasedOf (step { initState with isSessionActive := true, nextChunkToPlayIndex := 1 }
          (Act.add tinyPayload ['A', '.'] 0 : Act) 0).2, j ≠ 0) := by
  have hb := (C6_duplicate_admission
      { initState with isSessionActive := true, nextChunkToPlayIndex := 1 }).2
      tinyPayload ['A', '.'] 0 0 rfl
      (by intro q hq; simp [initState] at hq)
      (by intro q hq; simp [initState] at hq)
      (by decide)
  exact ⟨⟨rfl, (C6_duplicate_admission
      { initState with isSessionActive := true, isPlayingChunk := true }).1
      (some [1]) (some [2]) ['a'] ['b'] 7 0 0 rfl rfl⟩,
    by decide, hb.1, hb.2.1⟩

/-- C6 (counterexample to the claim as stated): chunk 0 is admitted, plays
and completes; re-admitting index 0 — an already-played index — is claimed
to "have no effect on session state or playback", yet in this realisable run
it re-inserts the entry (the queue afterwards has one element) and the
subsequent `signalEndOfStream` therefore fails to end the session: no
session-ended callback fires and the session stays active forever. -/
theorem C6_counterexample_stale_readmission :
    validTrace initState 0 c6trace = true
    ∧ releasedOf (runTrace initState c6trace).2 = [0]
    ∧ (runTrace initState c6trace).1.isSessionActive = true
    ∧ (runTrace initState c6trace).1.audioQueue.length = 1
    ∧ Ev.sessionEnded ∉ (runTrace initState c6trace).2 := by
  decide

/-- C7 (the code violates the claimed monotonicity): in the realisable run
`c7trace` — one chunk of five equal sentence units, played, paused and
resumed twice — the sentence-change callback receives the indices
0, 1, 1, 3, 2: the final 3 → 2 step decreases.  The cause: on resume,
`_scheduleHighlightingForChunk` accumulates `cumulativeTimeToSchedule`
starting at the resumed unit while subtracting the full `startOffset`
(which includes the skipped units), so rescheduled timers fire too early
and report too-high indices, which the next immediate report undercuts. -/
theorem C7_sentence_indices_can_decrease :
    validTrace initState 0 c7trace = true
    ∧ sentenceIdxOf (runTrace initState c7trace).2 = [0, 1, 1, 3, 2]
    ∧ ¬ List.Chain' (· ≤ ·) (sentenceIdxOf (runTrace initState c7trace).2) := by
  refine ⟨by decide, by decide, ?_⟩
  rw [show sentenceIdxOf (runTrace initState c7trace).2 = [0, 1, 1, 3, 2] from by decide]
  simp [List.chain'_cons]

/-- C5 (counterexample to the claim as stated): in a live session, admitting
a malformed chunk at the head index runs the full teardown — the resulting
state is exactly the module-load state — but the only event is the decode
attempt itself: the event list contains no callback invocation at all
(filtering for the three controller callbacks leaves nothing), so the error
is *not* surfaced to the session controller, contradicting the claim's
"the error is surfaced to the session controller". -/
theorem C5_counterexample_error_not_surfaced :
    (step (startStreamingPlayback initState 0 0).1 (Act.add (some [1]) ['h', 'i', '.'] 0) 0).1 =
      initState
    ∧ (step (startStreamingPlayback initState 0 0).1 (Act.add (some [1]) ['h', 'i', '.'] 0) 0).2 =
        [Ev.decodeCall 0]
    ∧ (step (startStreamingPlayback initState 0 0).1
        (Act.add (some [1]) ['h', 'i', '.'] 0) 0).2.filter isControllerEv = [] := by
  decide

/-- C8 (amended): with callbacks installed, a positive character count and a
positive duration, and a start offset exceeded by some unit cumulative
estimated duration, `_scheduleHighlightingForChunk` reports as immediately
current the first unit `m` whose cumulative estimated duration exceeds the
offset, schedules no timer for it, and builds exactly `codeTimers`: the
boundary into unit `m + r + 1` gets a timer only when `cumBefore (m+r+1) -
cumBefore m - startOffset` is positive, firing that many seconds after
scheduling.  The durations of the `m` skipped units are missing from every
delay, so the delays are smaller than the cumulative-duration-from-the-offset
values the claim states, and near boundaries are dropped instead of firing at
once. -/
theorem C8_offset_restart_timers (s : SvcState) (text : List Char) (buf : AudioBuffer)
    (now : ℚ) (hcb : s.hasCallbacks = true) (hchars : 0 < ((text.length : ℚ)))
    (hdur : 0 < buf.duration)
    (hex : ∃ k, k < (unitDurs text buf).length ∧
      s.startOffset < cumBefore (unitDurs text buf) (k + 1)) :
    ∃ m, m < (unitDurs text buf).length ∧
      s.startOffset < cumBefore (unitDurs text buf) (m + 1) ∧
      (∀ j, j < m → cumBefore (unitDurs text buf) (j + 1) ≤ s.startOffset) ∧
      scheduleHighlightingForChunk s text buf now =
        ({ s with highlightTimeouts := codeTimers (unitDurs text buf) s.startOffset now m },
         [Ev.sentenceChange (s.totalSentencesProcessed + m)]) := by
  have hex0 : ∃ k, k < (unitDurs text buf).length ∧
      s.startOffset < 0 + cumBefore (unitDurs text buf) (k + 1) := by
    obtain ⟨k, h1, h2⟩ := hex
    exact ⟨k, h1, by linarith⟩
  obtain ⟨m, hmeq, hmlen, hmlt, hmbd⟩ :=
    findStartAux_spec s.startOffset (unitDurs text buf) 0 0 hex0
  rw [Nat.zero_add] at hmeq
  refine ⟨m, hmlen, by linarith, fun j hj => by have := hmbd j hj; linarith, ?_⟩
  rw [schedule_main s text buf now hcb hchars hdur]
  have hstart : startIdx s text buf = m := hmeq
  rw [hstart, mkTimers_closed]

/-- C8 (counterexample to the claim as stated): five equal units of estimated
duration 1/24000 s, paused 1.2/24000 s into the chunk, so the starting unit is
m = 1.  The code installs timers [(1/30000, 3), (3/40000, 4)]; the claim
demands one timer per remaining boundary at its
cumulative-duration-from-the-offset, namely [(1/30000, 2), (3/40000, 3),
(7/60000, 4)].  The boundary into unit 2 gets no timer at all, and the timers
for units 3 and 4 fire one whole unit early. -/
theorem C8_counterexample_prefix_omitted :
    (scheduleHighlightingForChunk c8state fiveUnitText ⟨5⟩ 0).1.highlightTimeouts =
        [((1 : ℚ)/30000, 3), ((3 : ℚ)/40000, 4)]
    ∧ claimedTimers (unitDurs fiveUnitText ⟨5⟩) c8state.startOffset 0 1 =
        [((1 : ℚ)/30000, 2), ((3 : ℚ)/40000, 3), ((7 : ℚ)/60000, 4)]
    ∧ ((1 : ℚ)/30000, 2) ∉
        (scheduleHighlightingForChunk c8state fiveUnitText ⟨5⟩ 0).1.highlightTimeouts
    ∧ ((3 : ℚ)/40000, 3) ∉
        (scheduleHighlightingForChunk c8state fiveUnitText ⟨5⟩ 0).1.highlightTimeouts := by
  decide

/-- Witness for C8: the amended theorem applied to the concrete paused state
`c8state`, the five-unit text and its five-frame buffer at clock 0. -/
theorem C8_offset_restart_timers_witness :
    ∃ m, m < (unitDurs fiveUnitText ⟨5⟩).length ∧
      c8state.startOffset < cumBefore (unitDurs fiveUnitText ⟨5⟩) (m + 1) ∧
      (∀ j, j < m → cumBefore (unitDurs fiveUnitText ⟨5⟩) (j + 1) ≤ c8state.startOffset) ∧
      scheduleHighlightingForChunk c8state fiveUnitText ⟨5⟩ 0 =
        ({ c8state with highlightTimeouts := codeTimers (unitDurs fiveUnitText ⟨5⟩) c8state.startOffset 0 m },
         [Ev.sentenceChange (c8state.totalSentencesProcessed + m)]) :=
  C8_offset_restart_timers c8state fiveUnitText ⟨5⟩ 0 rfl (by decide) (by decide)
    ⟨1, by decide, by decide⟩

end BookNarrator
